import Mathlib

/-! # Device comparison, path resolution and drive classification of `pkg/uevent`

A shallow embedding of `pkg/uevent/utils.go` (the device comparator and the
path resolver) and of `pkg/uevent/indexer.go` (the drive classifier), together
with the properties its specification states.

Conventions of the embedding:

* Go `string` is `String`; the library functions of package `strings` and
  `path/filepath` work on the character list `String.data`.  Every separator
  that occurs (`/`, `.`, `0x`, the partition infixes) is ASCII, so working on
  characters or on UTF-8 bytes gives the same result.
* Go `int` is `Int`, `uint32` and `uint64` are `Nat`; the conversion
  `uint32(x)` is the explicit reduction modulo `2^32`.
* A Go slice is `Option (List _)`: `none` is the nil slice, `some []` the
  empty slice that is not nil (`reflect.DeepEqual` tells them apart).
* A function that writes through its pointer arguments returns the values
  they hold afterwards next to its result.
-/

namespace DirectPV

/-! ## Package `strings` -/

/-- Go's `strings.HasPrefix(s, pre)`. -/
def HasPrefix (s pre : String) : Bool :=
  pre.data.isPrefixOf s.data

/-- Substring test on character lists: `sub` starts at some position of `s`. -/
def containsChars (sub : List Char) : List Char → Bool
  | [] => sub.isPrefixOf []
  | c :: cs => sub.isPrefixOf (c :: cs) || containsChars sub cs

/-- Go's `strings.Contains(s, sub)`. -/
def Contains (s sub : String) : Bool :=
  containsChars sub.data s.data

/-- Go's `strings.TrimPrefix(s, pre)`: `s` without the leading `pre`, or `s` itself
when it does not start with `pre`. -/
def TrimPrefix (s pre : String) : String :=
  if HasPrefix s pre then ⟨s.data.drop pre.data.length⟩ else s

/-- Cuts a character list at the first `.`: the part before it and the part
after it, or `none` when there is no `.`. -/
def cutAtDot : List Char → Option (List Char × List Char)
  | [] => none
  | c :: cs =>
    if c = '.' then some ([], cs)
    else (cutAtDot cs).map fun p => (c :: p.1, p.2)

/-- Go's `strings.SplitN(s, ".", 2)`: at most two pieces, cut at the first `.`. -/
def SplitNDot2 (s : String) : List String :=
  match cutAtDot s.data with
  | none => [s]
  | some (a, b) => [⟨a⟩, ⟨b⟩]

/-- Replacement of the non-overlapping occurrences of a non-empty `old`, from
the left, at most `budget` of them.  `skip` counts the characters of an
occurrence already replaced that are still to be passed over. -/
def replaceChars (old new : List Char) : Nat → Nat → List Char → List Char
  | _, _, [] => []
  | skip + 1, budget, _ :: cs => replaceChars old new skip budget cs
  | 0, 0, c :: cs => c :: replaceChars old new 0 0 cs
  | 0, budget + 1, c :: cs =>
    if old.isPrefixOf (c :: cs) then new ++ replaceChars old new (old.length - 1) budget cs
    else c :: replaceChars old new 0 (budget + 1) cs

/-- Replacement for an empty `old`: `new` is put before the first character
and after each following one, at most `budget` times in all. -/
def insertChars (new : List Char) : Nat → List Char → List Char
  | 0, s => s
  | _ + 1, [] => new
  | budget + 1, c :: cs => new ++ c :: insertChars new budget cs

/-- Go's `strings.Replace(s, old, new, n)`; `n = none` stands for a negative `n`
(no limit on the number of replacements). -/
def Replace (s old new : String) (n : Option Nat) : String :=
  let budget := n.getD (s.data.length + 1)
  if old = new ∨ budget = 0 then s
  else if old.data = [] then ⟨insertChars new.data budget s.data⟩
  else ⟨replaceChars old.data new.data 0 budget s.data⟩

/-- Go's `strings.ReplaceAll(s, old, new)`. -/
def ReplaceAll (s old new : String) : String :=
  Replace s old new none

/-! ## Package `path/filepath` (Unix) -/

/-- The path elements of a character list: the pieces between the `/`. -/
def splitSlash : List Char → List (List Char)
  | [] => [[]]
  | c :: cs =>
    if c = '/' then [] :: splitSlash cs
    else
      match splitSlash cs with
      | [] => [[c]]
      | e :: es => (c :: e) :: es

/-- One step of `filepath.Clean`: the stack of kept elements (last one
first) after reading the element `e`. -/
def cleanStep (rooted : Bool) (stack : List (List Char)) (e : List Char) : List (List Char) :=
  if e = [] ∨ e = ['.'] then stack
  else if e = ['.', '.'] then
    match stack with
    | [] => if rooted then [] else [e]
    | top :: rest => if top = ['.', '.'] then e :: stack else rest
  else e :: stack

/-- Go's `filepath.Clean(path)`: empty and `.` elements are dropped, a `..` removes
the element before it (at the root it is dropped, in a relative path a
leading `..` is kept), and the empty result is `.`. -/
def Clean (path : String) : String :=
  if path.data = [] then "."
  else
    let rooted := path.data.head? = some '/'
    let kept := ((splitSlash path.data).foldl (cleanStep rooted) []).reverse
    let body := List.intercalate ['/'] kept
    if rooted then ⟨'/' :: body⟩
    else if body = [] then "."
    else ⟨body⟩

/-- Go's `filepath.Join(a, b)`: the elements from the first non-empty one on are
joined with `/` and cleaned; the empty string when both are empty. -/
def Join (a b : String) : String :=
  if a ≠ "" then Clean ⟨a.data ++ '/' :: b.data⟩
  else if b ≠ "" then Clean b
  else ""

/-- Go's `filepath.Base(path)`: the last element of the path, trailing slashes
removed first; `.` for the empty path and `/` for a path of slashes only. -/
def Base (path : String) : String :=
  if path.data = [] then "."
  else
    let stripped := path.data.reverse.dropWhile (· = '/')
    let last := (stripped.takeWhile (· ≠ '/')).reverse
    if last = [] then "/" else ⟨last⟩

/-! ## Package `sort` and `reflect` -/

/-- Go's `<` on strings (lexicographic), on character lists. -/
def lessChars : List Char → List Char → Bool
  | [], [] => false
  | [], _ :: _ => true
  | _ :: _, [] => false
  | a :: as, b :: bs =>
    if a.toNat < b.toNat then true
    else if b.toNat < a.toNat then false
    else lessChars as bs

/-- The order `a <= b` of Go strings. -/
def strLE (a b : String) : Prop :=
  lessChars b.data a.data = false

instance strLE.decidable : DecidableRel strLE :=
  fun a b => inferInstanceAs (Decidable (lessChars b.data a.data = false))

/-- Go's `sort.Strings(x)`: the slice holds its elements in increasing order
afterwards; the nil slice stays nil. -/
def sortStrings (x : Option (List String)) : Option (List String) :=
  x.map (List.insertionSort strLE)

/-- Go's `reflect.DeepEqual` on two `[]string`: both nil, or both not nil with the
same elements in the same order. -/
def deepEqualStrings (x y : Option (List String)) : Bool :=
  decide (x = y)

/-! ## Data model -/

/-- The device descriptor `sys.Device`, restricted to the attributes read by
package `uevent`. -/
structure Device where
  Name : String := ""
  /-- Modelled from the spec: the canonical path attribute of the device
  descriptor.  The source reads it through the method `DevPath()` of
  `sys.Device`, which is declared in package `sys`. -/
  DevPath : String := ""
  Major : Int := 0
  Minor : Int := 0
  Partition : Int := 0
  WWID : String := ""
  Model : String := ""
  UeventSerial : String := ""
  SerialLong : String := ""
  Vendor : String := ""
  DMName : String := ""
  DMUUID : String := ""
  MDUUID : String := ""
  PTUUID : String := ""
  PTType : String := ""
  PartUUID : String := ""
  FSType : String := ""
  UeventFSUUID : String := ""
  PCIPath : String := ""
  FSUUID : String := ""
  SwapOn : Bool := false
  ReadOnly : Bool := false
  Size : Nat := 0
  Partitioned : Bool := false
  Removable : Bool := false
  Hidden : Bool := false
  Holders : Option (List String) := none
  FirstMountPoint : String := ""
  FirstMountOptions : Option (List String) := none
deriving DecidableEq

/-- The pending format request of a drive (`directcsi.RequestedFormat`). -/
structure RequestedFormat where
  Force : Bool := false
  Purge : Bool := false
  Filesystem : String := ""
  Mountpoint : String := ""
  MountOptions : Option (List String) := none
deriving DecidableEq

/-- The part `directcsi.DirectCSIDriveSpec` of a drive record. -/
structure DirectCSIDriveSpec where
  DirectCSIOwned : Bool := false
  RequestedFormat : Option RequestedFormat := none
deriving DecidableEq

/-- The part `directcsi.DirectCSIDriveStatus` of a drive record. -/
structure DirectCSIDriveStatus where
  Path : String := ""
  NodeName : String := ""
  DriveStatus : String := ""
  MajorNumber : Nat := 0
  MinorNumber : Nat := 0
  PartitionNum : Int := 0
  WWID : String := ""
  ModelNumber : String := ""
  UeventSerial : String := ""
  SerialNumberLong : String := ""
  Vendor : String := ""
  DMName : String := ""
  DMUUID : String := ""
  MDUUID : String := ""
  PartTableUUID : String := ""
  PartTableType : String := ""
  PartitionUUID : String := ""
  Filesystem : String := ""
  UeventFSUUID : String := ""
  PCIPath : String := ""
  FilesystemUUID : String := ""
  SwapOn : Bool := false
  ReadOnly : Bool := false
  TotalCapacity : Int := 0
  Partitioned : Bool := false
  Mountpoint : String := ""
  MountOptions : Option (List String) := none
deriving DecidableEq

/-- The drive record `directcsi.DirectCSIDrive`. -/
structure DirectCSIDrive where
  Spec : DirectCSIDriveSpec := {}
  Status : DirectCSIDriveStatus := {}
deriving DecidableEq

/-- The conversion `uint32(x)` of a Go `int`. -/
def uint32 (x : Int) : Nat :=
  (x % 4294967296).toNat

/-- The constants of package `sys` that `getRootBlockPath` reads.  They are
declared in package `sys` and not in package `uevent`, so the function takes
them as an argument. -/
structure SysConsts where
  HostDevRoot : String
  DirectCSIDevRoot : String
  DirectCSIPartitionInfix : String
  HostPartitionInfix : String

/-- Modelled from the spec: the values of the constants of package `sys`.  The
host device root is `/dev`, the root under which the spec's example
`resolve("/dev/sda1") == "/dev/sda1"` lives; the private device root and the
two partition infixes have the values that package `sys` declares. -/
def sysConsts : SysConsts where
  HostDevRoot := "/dev"
  DirectCSIDevRoot := "/var/lib/direct-csi/devices"
  DirectCSIPartitionInfix := "-part-"
  HostPartitionInfix := "p"

/-! ## `pkg/uevent/utils.go` -/

/-- The function `getRootBlockPath`.  The first argument bounds the depth of
the recursion: `none` means that the bound was reached before the function
returned. -/
def getRootBlockPath (c : SysConsts) : Nat → String → Option String
  | 0, _ => none
  | fuel + 1, devName =>
    if HasPrefix devName c.HostDevRoot then
      some devName
    else if Contains devName c.DirectCSIDevRoot then
      getRootBlockPath c fuel (Base devName)
    else
      let name := ReplaceAll
        (Replace devName c.DirectCSIPartitionInfix "" (some 1))
        c.DirectCSIPartitionInfix
        c.HostPartitionInfix
      some (Join c.HostDevRoot name)

/-- The call `getRootBlockPath(devName)` returns `r`. -/
def Resolves (c : SysConsts) (devName r : String) : Prop :=
  ∃ fuel, getRootBlockPath c fuel devName = some r

/-- The function `ValidateMountInfo`.  `sort.Strings` sorts the array behind
the slice it is given, and the local variables `deviceMountOptions` and
`driveMountOptions` are slices over the arrays of the two arguments: the
device and the record as they are after the call are returned with the
result. -/
def ValidateMountInfo (device : Device) (directCSIDrive : DirectCSIDrive) :
    Bool × Device × DirectCSIDrive :=
  if device.FirstMountPoint ≠ directCSIDrive.Status.Mountpoint then
    (false, device, directCSIDrive)
  else
    let deviceMountOptions := sortStrings device.FirstMountOptions
    let driveMountOptions := sortStrings directCSIDrive.Status.MountOptions
    (deepEqualStrings deviceMountOptions driveMountOptions,
      { device with FirstMountOptions := deviceMountOptions },
      { directCSIDrive with
        Status := { directCSIDrive.Status with MountOptions := driveMountOptions } })

/-- The function `wwidWithoutExtension`. -/
def wwidWithoutExtension (wwid : String) : String :=
  let ls := SplitNDot2 wwid
  if ls.length = 2 then ls.getD 1 wwid else wwid

/-- The function `ValidateUDevInfo`.  The log calls are left out; the two
empty-tolerant checks return `false` only inside the inner `if`, and fall
through to the next check otherwise. -/
def ValidateUDevInfo (device : Device) (directCSIDrive : DirectCSIDrive) : Bool :=
  if directCSIDrive.Status.Path ≠ device.DevPath then false
  else if directCSIDrive.Status.MajorNumber ≠ uint32 device.Major then false
  else if directCSIDrive.Status.MinorNumber ≠ uint32 device.Minor then false
  else if directCSIDrive.Status.PartitionNum ≠ device.Partition then false
  else if directCSIDrive.Status.WWID ≠ device.WWID ∧
      wwidWithoutExtension directCSIDrive.Status.WWID ≠ TrimPrefix device.WWID "0x" then false
  else if directCSIDrive.Status.ModelNumber ≠ device.Model then false
  else if directCSIDrive.Status.UeventSerial ≠ device.UeventSerial then false
  else if directCSIDrive.Status.SerialNumberLong ≠ device.SerialLong then false
  else if directCSIDrive.Status.Vendor ≠ device.Vendor then false
  else if directCSIDrive.Status.DMName ≠ device.DMName then false
  else if directCSIDrive.Status.DMUUID ≠ device.DMUUID then false
  else if directCSIDrive.Status.MDUUID ≠ device.MDUUID then false
  else if directCSIDrive.Status.PartTableUUID ≠ device.PTUUID then false
  else if directCSIDrive.Status.PartTableType ≠ device.PTType then false
  else if directCSIDrive.Status.PartitionUUID ≠ device.PartUUID then false
  else if directCSIDrive.Status.Filesystem ≠ device.FSType ∧ device.FSType ≠ "" then false
  else if directCSIDrive.Status.UeventFSUUID ≠ device.UeventFSUUID ∧
      device.UeventFSUUID ≠ "" then false
  else if directCSIDrive.Status.PCIPath ≠ device.PCIPath then false
  else true

/-- The conversion `int64(x)` of a Go `uint64`. -/
def int64 (x : Nat) : Int :=
  if x % 18446744073709551616 < 9223372036854775808 then (x % 18446744073709551616 : Nat)
  else (x % 18446744073709551616 : Nat) - 18446744073709551616

/-- The function `validateSysInfo`.  The checks on the removable flag, the
hidden flag and the holders are commented out in the source. -/
def validateSysInfo (device : Device) (directCSIDrive : DirectCSIDrive) : Bool :=
  if directCSIDrive.Status.ReadOnly ≠ device.ReadOnly then false
  else if directCSIDrive.Status.TotalCapacity ≠ int64 device.Size then false
  else if directCSIDrive.Status.Partitioned ≠ device.Partitioned then false
  else true

/-- The function `validateDevInfo`. -/
def validateDevInfo (device : Device) (directCSIDrive : DirectCSIDrive) : Bool :=
  if directCSIDrive.Status.FilesystemUUID ≠ device.FSUUID then false
  else if directCSIDrive.Status.SwapOn ≠ device.SwapOn then false
  else true

/-- The drive status constants of package `directcsi` that package `uevent`
reads.  They are declared in package `directcsi`, so the functions take them
as an argument. -/
structure DriveStatusConsts where
  DriveStatusInUse : String
  DriveStatusReady : String
  DriveStatusAvailable : String

/-- Modelled from the spec: the values of the drive status constants, named
after the statuses in-use, ready and available of the spec's drive status
enum; they have the values that package `directcsi` declares. -/
def driveStatusConsts : DriveStatusConsts where
  DriveStatusInUse := "InUse"
  DriveStatusReady := "Ready"
  DriveStatusAvailable := "Available"

/-- The function `IsFormatRequested`. -/
def IsFormatRequested (k : DriveStatusConsts) (directCSIDrive : DirectCSIDrive) : Bool :=
  directCSIDrive.Spec.DirectCSIOwned &&
    directCSIDrive.Spec.RequestedFormat.isSome &&
    decide (directCSIDrive.Status.DriveStatus = k.DriveStatusAvailable)

/-! ## `pkg/uevent/indexer.go` -/

/-- An object listed by the store (an `interface{}`): a pointer to a drive
record, or a value of any other type.  A nil pointer to a drive record is left
out: the store's key function cannot take one. -/
inductive StoreObject where
  | drive (directCSIDrive : DirectCSIDrive)
  | other (typeName : String)
deriving DecidableEq

/-- The errors of package `uevent`. -/
inductive UEventError where
  | errNotDirectCSIDriveObject
deriving DecidableEq

/-- The type `indexer`; `store` is what `store.List()` returns at the time of
the call. -/
structure indexer where
  store : List StoreObject
  nodeID : String

/-- Go's `append(s, x)` on a slice of drive records. -/
def appendDrive (s : Option (List DirectCSIDrive)) (x : DirectCSIDrive) :
    Option (List DirectCSIDrive) :=
  some (s.getD [] ++ [x])

/-- The loop of `filterDrivesByUEventFSUUID` over the listed objects that are
left, with the value of `filteredDrives` so far. -/
def filterDrivesLoop (nodeID fsuuid : String) :
    List StoreObject → Option (List DirectCSIDrive) →
      Option (List DirectCSIDrive) × Option UEventError
  | [], filteredDrives => (filteredDrives, none)
  | .other _ :: _, _ => (none, some .errNotDirectCSIDriveObject)
  | .drive directCSIDrive :: objects, filteredDrives =>
    if directCSIDrive.Status.NodeName ≠ nodeID then
      filterDrivesLoop nodeID fsuuid objects filteredDrives
    else if directCSIDrive.Status.UeventFSUUID ≠ fsuuid then
      filterDrivesLoop nodeID fsuuid objects filteredDrives
    else
      filterDrivesLoop nodeID fsuuid objects (appendDrive filteredDrives directCSIDrive)

/-- The method `filterDrivesByUEventFSUUID`: `filteredDrives` starts as the
empty slice that is not nil. -/
def indexer.filterDrivesByUEventFSUUID (i : indexer) (fsuuid : String) :
    Option (List DirectCSIDrive) × Option UEventError :=
  filterDrivesLoop i.nodeID fsuuid i.store (some [])

/-- The loop of `listDrives` over the listed objects that are left, with the
values of `managedDrives` and `nonManagedDrives` so far. -/
def listDrivesLoop (k : DriveStatusConsts) (nodeID : String) :
    List StoreObject → Option (List DirectCSIDrive) → Option (List DirectCSIDrive) →
      Option (List DirectCSIDrive) × Option (List DirectCSIDrive) × Option UEventError
  | [], managedDrives, nonManagedDrives => (managedDrives, nonManagedDrives, none)
  | .other _ :: _, _, _ => (none, none, some .errNotDirectCSIDriveObject)
  | .drive directCSIDrive :: objects, managedDrives, nonManagedDrives =>
    if directCSIDrive.Status.NodeName ≠ nodeID then
      listDrivesLoop k nodeID objects managedDrives nonManagedDrives
    else if directCSIDrive.Status.DriveStatus = k.DriveStatusInUse ∨
        directCSIDrive.Status.DriveStatus = k.DriveStatusReady then
      listDrivesLoop k nodeID objects (appendDrive managedDrives directCSIDrive) nonManagedDrives
    else
      listDrivesLoop k nodeID objects managedDrives (appendDrive nonManagedDrives directCSIDrive)

/-- The method `listDrives`: the two named results start as nil slices. -/
def indexer.listDrives (k : DriveStatusConsts) (i : indexer) :
    Option (List DirectCSIDrive) × Option (List DirectCSIDrive) × Option UEventError :=
  listDrivesLoop k i.nodeID i.store none none

/-! ## The vocabulary of the specification -/

/-- The identity fields that `ValidateUDevInfo` compares. -/
inductive IdentityField where
  | path | major | minor | partition | wwid | model | ueventSerial | serialLong
  | vendor | dmName | dmUUID | mdUUID | ptUUID | ptType | partUUID
  | fsType | ueventFSUUID | pciPath
deriving DecidableEq, Repr

/-- The strict fields: all but the WWID and the two empty-tolerant fields. -/
def IdentityField.strict : IdentityField → Bool
  | .wwid | .fsType | .ueventFSUUID => false
  | _ => true

/-- The record and the device hold the same value in the field `f`. -/
def agree (device : Device) (directCSIDrive : DirectCSIDrive) : IdentityField → Prop
  | .path => directCSIDrive.Status.Path = device.DevPath
  | .major => (directCSIDrive.Status.MajorNumber : Int) = device.Major
  | .minor => (directCSIDrive.Status.MinorNumber : Int) = device.Minor
  | .partition => directCSIDrive.Status.PartitionNum = device.Partition
  | .wwid => directCSIDrive.Status.WWID = device.WWID
  | .model => directCSIDrive.Status.ModelNumber = device.Model
  | .ueventSerial => directCSIDrive.Status.UeventSerial = device.UeventSerial
  | .serialLong => directCSIDrive.Status.SerialNumberLong = device.SerialLong
  | .vendor => directCSIDrive.Status.Vendor = device.Vendor
  | .dmName => directCSIDrive.Status.DMName = device.DMName
  | .dmUUID => directCSIDrive.Status.DMUUID = device.DMUUID
  | .mdUUID => directCSIDrive.Status.MDUUID = device.MDUUID
  | .ptUUID => directCSIDrive.Status.PartTableUUID = device.PTUUID
  | .ptType => directCSIDrive.Status.PartTableType = device.PTType
  | .partUUID => directCSIDrive.Status.PartitionUUID = device.PartUUID
  | .fsType => directCSIDrive.Status.Filesystem = device.FSType
  | .ueventFSUUID => directCSIDrive.Status.UeventFSUUID = device.UeventFSUUID
  | .pciPath => directCSIDrive.Status.PCIPath = device.PCIPath

/-- The record and the device agree on every identity field other than `f`. -/
def agreeExcept (device : Device) (directCSIDrive : DirectCSIDrive) (f : IdentityField) : Prop :=
  ∀ g, g ≠ f → agree device directCSIDrive g

/-- The device's major and minor numbers lie in the unsigned 32-bit range. -/
def deviceNumbersInRange (device : Device) : Prop :=
  0 ≤ device.Major ∧ device.Major < 4294967296 ∧ 0 ≤ device.Minor ∧ device.Minor < 4294967296

/-- The record's major and minor numbers are values of type `uint32`. -/
def recordNumbersInRange (directCSIDrive : DirectCSIDrive) : Prop :=
  directCSIDrive.Status.MajorNumber < 4294967296 ∧ directCSIDrive.Status.MinorNumber < 4294967296

/-- The vendor-extension prefix of a WWID removed, in the words of the
specification: everything up to and including the first `.` is dropped, and a
WWID without a `.` is left as it is. -/
def stripVendorExtension (wwid : String) : String :=
  if '.' ∈ wwid.data then ⟨(wwid.data.dropWhile (· ≠ '.')).drop 1⟩ else wwid

/-- One leading `0x` removed, in the words of the specification. -/
def stripHexPrefix (wwid : String) : String :=
  if wwid.data.take 2 = ['0', 'x'] then ⟨wwid.data.drop 2⟩ else wwid

/-- The elements of a slice. -/
def sliceElems (x : Option (List String)) : List String :=
  x.getD []

/-- Two slices are equal as sets: they have the same members. -/
def sameMembers (x y : Option (List String)) : Prop :=
  ∀ o, o ∈ sliceElems x ↔ o ∈ sliceElems y

/-- Two slices are equal as multisets: the same members, each as many times
in one as in the other. -/
def sameMultiset (x y : Option (List String)) : Prop :=
  (sliceElems x).Perm (sliceElems y)

/-- One of the two slices is nil and the other is empty but not nil. -/
def nilAgainstEmpty (x y : Option (List String)) : Prop :=
  (x = none ∧ y = some []) ∨ (x = some [] ∧ y = none)

/-- The name with the partition infix of the orchestrator replaced by the
partition infix of the host, in the words of the specification. -/
def infixReplaced (c : SysConsts) (devName : String) : String :=
  ReplaceAll devName c.DirectCSIPartitionInfix c.HostPartitionInfix

/-- The first occurrence of `old` in a character list: what stands before it
and what stands after it, or `none` when `old` does not occur. -/
def cutAtFirst (old : List Char) : List Char → Option (List Char × List Char)
  | [] => if old = [] then some ([], []) else none
  | c :: cs =>
    if old.isPrefixOf (c :: cs) then some ([], (c :: cs).drop old.length)
    else (cutAtFirst old cs).map fun p => (c :: p.1, p.2)

/-- The character list without the first occurrence of `old`. -/
def withoutFirst (old s : List Char) : List Char :=
  match cutAtFirst old s with
  | none => s
  | some (before, after) => before ++ after

/-- The pieces of a character list between the occurrences of `old`, the
occurrences taken from the left, each one after the end of the one before it;
at most `n` occurrences are looked for. -/
def piecesBetween (old : List Char) : Nat → List Char → List (List Char)
  | 0, s => [s]
  | n + 1, s =>
    match cutAtFirst old s with
    | none => [s]
    | some (before, after) => before :: piecesBetween old n after

/-- The character list with every occurrence of `old` replaced by `new`: its
pieces between the occurrences, put together again with `new` in between. -/
def withEveryReplaced (old new s : List Char) : List Char :=
  List.intercalate new (piecesBetween old s.length s)

/-- The name of the default branch, in the words of the amended
specification: the first occurrence of the orchestrator's partition infix is
removed, and then, in the name so obtained, every occurrence of the
orchestrator's partition infix is replaced by the host's partition infix. -/
def infixRemovedThenReplaced (c : SysConsts) (devName : String) : String :=
  ⟨withEveryReplaced c.DirectCSIPartitionInfix.data c.HostPartitionInfix.data
    (withoutFirst c.DirectCSIPartitionInfix.data devName.data)⟩

/-- The records of a slice of drive records. -/
def driveElems (x : Option (List DirectCSIDrive)) : List DirectCSIDrive :=
  x.getD []

/-- The record belongs to the node `nodeID`. -/
def onNode (nodeID : String) (directCSIDrive : DirectCSIDrive) : Bool :=
  decide (directCSIDrive.Status.NodeName = nodeID)

/-- The record is managed: its status is in-use or ready. -/
def isManaged (k : DriveStatusConsts) (directCSIDrive : DirectCSIDrive) : Bool :=
  decide (directCSIDrive.Status.DriveStatus = k.DriveStatusInUse ∨
    directCSIDrive.Status.DriveStatus = k.DriveStatusReady)

/-- The listed object is a drive record. -/
def StoreObject.isDrive : StoreObject → Bool
  | .drive _ => true
  | .other _ => false

/-! ## Properties of `ValidateUDevInfo` -/

/-- On the `uint32` range the conversion `uint32(x)` keeps the value. -/
theorem uint32_eq_iff (n : Nat) (x : Int) (h0 : 0 ≤ x) (h1 : x < 4294967296) :
    n = uint32 x ↔ (n : Int) = x := by
  unfold uint32
  omega

/-- The result of `ValidateUDevInfo` as a conjunction of its eighteen checks. -/
theorem ValidateUDevInfo_eq_true_iff (device : Device) (directCSIDrive : DirectCSIDrive) :
    ValidateUDevInfo device directCSIDrive = true ↔
      directCSIDrive.Status.Path = device.DevPath ∧
      directCSIDrive.Status.MajorNumber = uint32 device.Major ∧
      directCSIDrive.Status.MinorNumber = uint32 device.Minor ∧
      directCSIDrive.Status.PartitionNum = device.Partition ∧
      (directCSIDrive.Status.WWID = device.WWID ∨
        wwidWithoutExtension directCSIDrive.Status.WWID = TrimPrefix device.WWID "0x") ∧
      directCSIDrive.Status.ModelNumber = device.Model ∧
      directCSIDrive.Status.UeventSerial = device.UeventSerial ∧
      directCSIDrive.Status.SerialNumberLong = device.SerialLong ∧
      directCSIDrive.Status.Vendor = device.Vendor ∧
      directCSIDrive.Status.DMName = device.DMName ∧
      directCSIDrive.Status.DMUUID = device.DMUUID ∧
      directCSIDrive.Status.MDUUID = device.MDUUID ∧
      directCSIDrive.Status.PartTableUUID = device.PTUUID ∧
      directCSIDrive.Status.PartTableType = device.PTType ∧
      directCSIDrive.Status.PartitionUUID = device.PartUUID ∧
      (directCSIDrive.Status.Filesystem = device.FSType ∨ device.FSType = "") ∧
      (directCSIDrive.Status.UeventFSUUID = device.UeventFSUUID ∨ device.UeventFSUUID = "") ∧
      directCSIDrive.Status.PCIPath = device.PCIPath := by
  unfold ValidateUDevInfo
  simp only [ne_eq, ite_not, Bool.if_false_left, Bool.if_false_right, Bool.and_true,
    Bool.and_eq_true, decide_eq_true_eq, Bool.not_eq_true', decide_eq_false_iff_not,
    not_and, not_not, Bool.decide_and, Bool.decide_eq_true, Bool.and_eq_false_imp, decide_not,
    Bool.not_eq_true, Bool.not_eq_false, Bool.not_eq_false']
  tauto

theorem cutAtDot_none_iff (l : List Char) : cutAtDot l = none ↔ '.' ∉ l := by
  induction l with
  | nil => simp [cutAtDot]
  | cons c cs ih =>
    by_cases hc : c = '.'
    · simp [cutAtDot, hc]
    · have hc2 : ¬ '.' = c := fun h => hc h.symm
      simp [cutAtDot, hc, hc2, ih]

theorem cutAtDot_some (l a b : List Char) (h : cutAtDot l = some (a, b)) :
    b = (l.dropWhile (· ≠ '.')).drop 1 := by
  induction l generalizing a with
  | nil => simp [cutAtDot] at h
  | cons c cs ih =>
    by_cases hc : c = '.'
    · simp [cutAtDot, hc] at h
      simp [List.dropWhile, hc, h.2]
    · simp only [cutAtDot, hc, if_false, Option.map_eq_some'] at h
      obtain ⟨p, hp, hq⟩ := h
      have hb : p.2 = b := by simpa using congrArg Prod.snd hq
      have := ih p.1 (by rw [hp, ← hb])
      rw [this]
      simp [List.dropWhile, hc]

/-- The code's `wwidWithoutExtension` is the prefix stripping of the spec. -/
theorem wwidWithoutExtension_eq (wwid : String) :
    wwidWithoutExtension wwid = stripVendorExtension wwid := by
  unfold wwidWithoutExtension stripVendorExtension SplitNDot2
  cases h : cutAtDot wwid.data with
  | none =>
    have := (cutAtDot_none_iff _).1 h
    simp [this]
  | some p =>
    obtain ⟨a, b⟩ := p
    have hmem : '.' ∈ wwid.data := by
      by_contra hn
      rw [(cutAtDot_none_iff _).2 hn] at h
      exact Option.noConfusion h
    have := cutAtDot_some _ _ _ h
    simp [hmem, this]

/-- The code's `strings.TrimPrefix(wwid, "0x")` strips one leading `0x`. -/
theorem TrimPrefix_0x_eq (wwid : String) : TrimPrefix wwid "0x" = stripHexPrefix wwid := by
  unfold TrimPrefix stripHexPrefix HasPrefix
  have h : ("0x".data.isPrefixOf wwid.data = true) ↔ wwid.data.take 2 = ['0', 'x'] := by
    rw [List.isPrefixOf_iff_prefix, List.prefix_iff_eq_take]
    exact eq_comm
  by_cases hp : wwid.data.take 2 = ['0', 'x']
  · rw [if_pos (h.2 hp), if_pos hp]
    rfl
  · rw [if_neg (fun hh => hp (h.1 hh)), if_neg hp]

/-- A `uint32` equal to the device's number is what `uint32(x)` gives. -/
theorem uint32_of_agree (n : Nat) (x : Int) (hn : n < 4294967296) (h : (n : Int) = x) :
    n = uint32 x := by
  unfold uint32
  omega

/-- Once the strict fields pass, `ValidateUDevInfo` is decided by the WWID
check and the two empty-tolerant checks. -/
theorem ValidateUDevInfo_iff_of_strict (device : Device) (directCSIDrive : DirectCSIDrive)
    (hmajor : directCSIDrive.Status.MajorNumber = uint32 device.Major)
    (hminor : directCSIDrive.Status.MinorNumber = uint32 device.Minor)
    (hs : ∀ f, f.strict = true → f ≠ .major → f ≠ .minor → agree device directCSIDrive f) :
    ValidateUDevInfo device directCSIDrive = true ↔
      (directCSIDrive.Status.WWID = device.WWID ∨
        wwidWithoutExtension directCSIDrive.Status.WWID = TrimPrefix device.WWID "0x") ∧
      (directCSIDrive.Status.Filesystem = device.FSType ∨ device.FSType = "") ∧
      (directCSIDrive.Status.UeventFSUUID = device.UeventFSUUID ∨ device.UeventFSUUID = "") := by
  rw [ValidateUDevInfo_eq_true_iff]
  have h1 := hs .path rfl (by decide) (by decide)
  have h2 := hs .partition rfl (by decide) (by decide)
  have h3 := hs .model rfl (by decide) (by decide)
  have h4 := hs .ueventSerial rfl (by decide) (by decide)
  have h5 := hs .serialLong rfl (by decide) (by decide)
  have h6 := hs .vendor rfl (by decide) (by decide)
  have h7 := hs .dmName rfl (by decide) (by decide)
  have h8 := hs .dmUUID rfl (by decide) (by decide)
  have h9 := hs .mdUUID rfl (by decide) (by decide)
  have h10 := hs .ptUUID rfl (by decide) (by decide)
  have h11 := hs .ptType rfl (by decide) (by decide)
  have h12 := hs .partUUID rfl (by decide) (by decide)
  have h13 := hs .pciPath rfl (by decide) (by decide)
  simp only [agree] at h1 h2 h3 h4 h5 h6 h7 h8 h9 h10 h11 h12 h13
  tauto

/-- A device that passes `ValidateUDevInfo` with major and minor numbers in
the `uint32` range agrees with the record on every strict field. -/
theorem agree_of_ValidateUDevInfo (device : Device) (directCSIDrive : DirectCSIDrive)
    (hrange : deviceNumbersInRange device)
    (h : ValidateUDevInfo device directCSIDrive = true) (f : IdentityField)
    (hf : f.strict = true) : agree device directCSIDrive f := by
  rw [ValidateUDevInfo_eq_true_iff] at h
  obtain ⟨h0, h1, h2, h3⟩ := hrange
  have hM := (uint32_eq_iff directCSIDrive.Status.MajorNumber device.Major h0 h1).1 h.2.1
  have hm := (uint32_eq_iff directCSIDrive.Status.MinorNumber device.Minor h2 h3).1 h.2.2.1
  cases f <;> simp only [agree] <;> first
    | exact hM
    | exact hm
    | exact absurd hf (by decide)
    | tauto

/-- C1: a record and a device (major and minor numbers in the unsigned 32-bit
range) that agree on all identity fields except exactly one strict field are
rejected: `ValidateUDevInfo` returns false. -/
theorem ValidateUDevInfo_false_of_one_strict_mismatch (device : Device)
    (directCSIDrive : DirectCSIDrive) (f : IdentityField)
    (hrange : deviceNumbersInRange device) (hstrict : f.strict = true)
    (hdiff : ¬ agree device directCSIDrive f)
    (_hrest : agreeExcept device directCSIDrive f) :
    ValidateUDevInfo device directCSIDrive = false := by
  cases h : ValidateUDevInfo device directCSIDrive with
  | false => rfl
  | true => exact absurd (agree_of_ValidateUDevInfo device directCSIDrive hrange h f hstrict) hdiff

/-- Witness of C1: a record with partition number 2 against a device with
partition number 1, all other fields equal. -/
theorem ValidateUDevInfo_false_of_one_strict_mismatch_witness :
    ValidateUDevInfo { DevPath := "/dev/sda1", Major := 8, Minor := 1, Partition := 1 }
      { Status := { Path := "/dev/sda1", MajorNumber := 8, MinorNumber := 1, PartitionNum := 2 } }
      = false :=
  ValidateUDevInfo_false_of_one_strict_mismatch _ _ .partition
    (by simp [deviceNumbersInRange]) rfl (by simp [agree])
    (by intro g hg; cases g <;> first | exact absurd rfl hg | simp [agree])

/-- For a record with `uint32` numbers that agrees with the device on every
field other than `f`, the strict checks on fields other than `f` pass. -/
theorem strict_checks_of_agreeExcept (device : Device) (directCSIDrive : DirectCSIDrive)
    (f : IdentityField) (hf : f.strict = false) (hrec : recordNumbersInRange directCSIDrive)
    (hrest : agreeExcept device directCSIDrive f) :
    directCSIDrive.Status.MajorNumber = uint32 device.Major ∧
    directCSIDrive.Status.MinorNumber = uint32 device.Minor ∧
    ∀ g, g.strict = true → g ≠ .major → g ≠ .minor → agree device directCSIDrive g := by
  have hne : ∀ g, g.strict = true → g ≠ f := by
    intro g hg hgf
    rw [hgf, hf] at hg
    exact Bool.noConfusion hg
  refine ⟨uint32_of_agree _ _ hrec.1 (hrest .major (hne _ rfl)),
    uint32_of_agree _ _ hrec.2 (hrest .minor (hne _ rfl)), ?_⟩
  intro g hg _ _
  exact hrest g (hne g hg)

/-- C2: for a record and a device that agree on every other identity field,
`ValidateUDevInfo` returns true if and only if the record's WWID equals the
device's WWID, or the record's WWID without its vendor-extension prefix equals
the device's WWID without one leading `0x`; record `naa.123456` against device
`0x123456` gives true and record `naa.999` against device `0x123456` gives
false. -/
theorem ValidateUDevInfo_wwid (device : Device) (directCSIDrive : DirectCSIDrive)
    (hrec : recordNumbersInRange directCSIDrive)
    (hrest : agreeExcept device directCSIDrive .wwid) :
    (ValidateUDevInfo device directCSIDrive = true ↔
      directCSIDrive.Status.WWID = device.WWID ∨
      stripVendorExtension directCSIDrive.Status.WWID = stripHexPrefix device.WWID) ∧
    (directCSIDrive.Status.WWID = "naa.123456" → device.WWID = "0x123456" →
      ValidateUDevInfo device directCSIDrive = true) ∧
    (directCSIDrive.Status.WWID = "naa.999" → device.WWID = "0x123456" →
      ValidateUDevInfo device directCSIDrive = false) := by
  obtain ⟨hM, hm, hs⟩ := strict_checks_of_agreeExcept device directCSIDrive .wwid rfl hrec hrest
  have hfs : directCSIDrive.Status.Filesystem = device.FSType := hrest .fsType (by decide)
  have hid : directCSIDrive.Status.UeventFSUUID = device.UeventFSUUID :=
    hrest .ueventFSUUID (by decide)
  have key : ValidateUDevInfo device directCSIDrive = true ↔
      directCSIDrive.Status.WWID = device.WWID ∨
      stripVendorExtension directCSIDrive.Status.WWID = stripHexPrefix device.WWID := by
    rw [ValidateUDevInfo_iff_of_strict device directCSIDrive hM hm hs,
      wwidWithoutExtension_eq, TrimPrefix_0x_eq]
    tauto
  refine ⟨key, ?_, ?_⟩
  · intro h1 h2
    rw [key, h1, h2]
    right
    decide
  · intro h1 h2
    cases hv : ValidateUDevInfo device directCSIDrive with
    | false => rfl
    | true =>
      rw [key, h1, h2] at hv
      exact absurd hv (by decide)

/-- Witness of C2: the two WWID examples of the specification on a device and
a record that are equal in every other field. -/
theorem ValidateUDevInfo_wwid_witness :
    ValidateUDevInfo { DevPath := "/dev/sdb", Major := 8, Minor := 16, WWID := "0x123456" }
      { Status := { Path := "/dev/sdb", MajorNumber := 8, MinorNumber := 16,
                    WWID := "naa.123456" } } = true ∧
    ValidateUDevInfo { DevPath := "/dev/sdb", Major := 8, Minor := 16, WWID := "0x123456" }
      { Status := { Path := "/dev/sdb", MajorNumber := 8, MinorNumber := 16,
                    WWID := "naa.999" } } = false :=
  ⟨(ValidateUDevInfo_wwid _ _ (by simp [recordNumbersInRange])
      (by intro g hg; cases g <;> first | exact absurd rfl hg | simp [agree])).2.1 rfl rfl,
   (ValidateUDevInfo_wwid _ _ (by simp [recordNumbersInRange])
      (by intro g hg; cases g <;> first | exact absurd rfl hg | simp [agree])).2.2 rfl rfl⟩

/-- C3: empty-tolerance.  For a record and a device that agree on all other
identity fields, a difference in the filesystem type makes `ValidateUDevInfo`
return false if and only if the device's filesystem type is not empty, and a
difference in the uevent filesystem UUID makes it return false if and only if
the device's uevent filesystem UUID is not empty. -/
theorem ValidateUDevInfo_empty_tolerance (device : Device) (directCSIDrive : DirectCSIDrive)
    (hrec : recordNumbersInRange directCSIDrive) :
    (agreeExcept device directCSIDrive .fsType →
      directCSIDrive.Status.Filesystem ≠ device.FSType →
      (ValidateUDevInfo device directCSIDrive = false ↔ device.FSType ≠ "")) ∧
    (agreeExcept device directCSIDrive .ueventFSUUID →
      directCSIDrive.Status.UeventFSUUID ≠ device.UeventFSUUID →
      (ValidateUDevInfo device directCSIDrive = false ↔ device.UeventFSUUID ≠ "")) := by
  constructor
  · intro hrest hdiff
    obtain ⟨hM, hm, hs⟩ :=
      strict_checks_of_agreeExcept device directCSIDrive .fsType rfl hrec hrest
    have hw : directCSIDrive.Status.WWID = device.WWID := hrest .wwid (by decide)
    have hid : directCSIDrive.Status.UeventFSUUID = device.UeventFSUUID :=
      hrest .ueventFSUUID (by decide)
    rw [← Bool.not_eq_true, ValidateUDevInfo_iff_of_strict device directCSIDrive hM hm hs]
    tauto
  · intro hrest hdiff
    obtain ⟨hM, hm, hs⟩ :=
      strict_checks_of_agreeExcept device directCSIDrive .ueventFSUUID rfl hrec hrest
    have hw : directCSIDrive.Status.WWID = device.WWID := hrest .wwid (by decide)
    have hfs : directCSIDrive.Status.Filesystem = device.FSType := hrest .fsType (by decide)
    rw [← Bool.not_eq_true, ValidateUDevInfo_iff_of_strict device directCSIDrive hM hm hs]
    tauto

/-- Witness of C3: an empty device filesystem type passes against the record's
`xfs`; the device's `ext4` fails against the record's `xfs`, and a device
uevent filesystem UUID that is not empty fails against an empty one of the
record. -/
theorem ValidateUDevInfo_empty_tolerance_witness :
    ValidateUDevInfo { FSType := "" } { Status := { Filesystem := "xfs" } } ≠ false ∧
    ValidateUDevInfo { FSType := "ext4" } { Status := { Filesystem := "xfs" } } = false ∧
    ValidateUDevInfo { UeventFSUUID := "a1b2" } { Status := { UeventFSUUID := "" } } = false :=
  ⟨fun h => absurd
      (((ValidateUDevInfo_empty_tolerance { FSType := "" } { Status := { Filesystem := "xfs" } }
        (by simp [recordNumbersInRange])).1
        (by intro g hg; cases g <;> first | exact absurd rfl hg | simp [agree])
        (by decide)).1 h) (by decide),
   ((ValidateUDevInfo_empty_tolerance { FSType := "ext4" } { Status := { Filesystem := "xfs" } }
        (by simp [recordNumbersInRange])).1
        (by intro g hg; cases g <;> first | exact absurd rfl hg | simp [agree])
        (by decide)).2 (by decide),
   ((ValidateUDevInfo_empty_tolerance { UeventFSUUID := "a1b2" }
        { Status := { UeventFSUUID := "" } }
        (by simp [recordNumbersInRange])).2
        (by intro g hg; cases g <;> first | exact absurd rfl hg | simp [agree])
        (by decide)).2 (by decide)⟩

/-- C4: a record (major and minor numbers of type `uint32`) and a device whose
identity fields all hold identical values pass: `ValidateUDevInfo` returns
true. -/
theorem ValidateUDevInfo_of_identical (device : Device) (directCSIDrive : DirectCSIDrive)
    (hrec : recordNumbersInRange directCSIDrive)
    (hall : ∀ f, agree device directCSIDrive f) :
    ValidateUDevInfo device directCSIDrive = true := by
  have hrest : agreeExcept device directCSIDrive .wwid := fun g _ => hall g
  obtain ⟨hM, hm, hs⟩ := strict_checks_of_agreeExcept device directCSIDrive .wwid rfl hrec hrest
  rw [ValidateUDevInfo_iff_of_strict device directCSIDrive hM hm hs]
  exact ⟨Or.inl (hall .wwid), Or.inl (hall .fsType), Or.inl (hall .ueventFSUUID)⟩

/-- Witness of C4: a partition of an NVMe drive and its record. -/
theorem ValidateUDevInfo_of_identical_witness :
    ValidateUDevInfo
      { DevPath := "/dev/nvme0n1p1", Major := 259, Minor := 1, Partition := 1,
        WWID := "eui.0025388b01b0f3e5", Model := "SSD 970", FSType := "xfs",
        UeventFSUUID := "6e2f", PTType := "gpt" }
      { Status := { Path := "/dev/nvme0n1p1", MajorNumber := 259, MinorNumber := 1,
                    PartitionNum := 1, WWID := "eui.0025388b01b0f3e5", ModelNumber := "SSD 970",
                    Filesystem := "xfs", UeventFSUUID := "6e2f", PartTableType := "gpt" } }
      = true :=
  ValidateUDevInfo_of_identical _ _ (by simp [recordNumbersInRange])
    (by intro g; cases g <;> simp [agree])

/-! ## Properties of `ValidateMountInfo` -/

/-- Characters with the same code point are equal. -/
theorem char_eq_of_toNat_eq (a b : Char) (h : a.toNat = b.toNat) : a = b := by
  apply Char.ext
  apply UInt32.ext
  exact h

theorem lessChars_total : ∀ a b : List Char, lessChars a b = false ∨ lessChars b a = false
  | [], [] => by simp [lessChars]
  | [], _ :: _ => by simp [lessChars]
  | _ :: _, [] => by simp [lessChars]
  | a :: as, b :: bs => by
    simp only [lessChars]
    have ih := lessChars_total as bs
    split_ifs <;> first | omega | simp | exact ih

theorem lessChars_antisymm : ∀ a b : List Char,
    lessChars a b = false → lessChars b a = false → a = b
  | [], [] => by simp
  | [], _ :: _ => by simp [lessChars]
  | _ :: _, [] => by simp [lessChars]
  | a :: as, b :: bs => by
    simp only [lessChars]
    have ih := lessChars_antisymm as bs
    split_ifs with h1 h2 <;> intro h3 h4
    all_goals first
      | contradiction
      | omega
      | rw [char_eq_of_toNat_eq a b (by omega), ih h3 h4]

theorem lessChars_trans : ∀ a b c : List Char,
    lessChars b a = false → lessChars c b = false → lessChars c a = false
  | [], [], [] => by simp [lessChars]
  | [], [], _ :: _ => by simp [lessChars]
  | [], _ :: _, [] => by simp [lessChars]
  | [], _ :: _, _ :: _ => by simp [lessChars]
  | _ :: _, [], [] => by simp [lessChars]
  | _ :: _, [], _ :: _ => by simp [lessChars]
  | _ :: _, _ :: _, [] => by simp [lessChars]
  | a :: as, b :: bs, c :: cs => by
    simp only [lessChars]
    have ih := lessChars_trans as bs cs
    split_ifs <;> intro h3 h4
    all_goals first
      | contradiction
      | omega
      | rfl
      | exact ih h3 h4

/-- Two lists of strings have the same sorted form exactly when one is a
permutation of the other. -/
theorem insertionSort_eq_iff_perm (l₁ l₂ : List String) :
    List.insertionSort strLE l₁ = List.insertionSort strLE l₂ ↔ l₁.Perm l₂ := by
  constructor
  · intro h
    have h1 := List.perm_insertionSort strLE l₁
    have h2 := List.perm_insertionSort strLE l₂
    rw [h] at h1
    exact h1.symm.trans h2
  · intro h
    haveI : IsTotal String strLE := ⟨fun a b => lessChars_total b.data a.data⟩
    haveI : IsTrans String strLE :=
      ⟨fun a b c hab hbc => lessChars_trans a.data b.data c.data hab hbc⟩
    haveI : IsAntisymm String strLE := ⟨fun a b hab hba => by
      have h := lessChars_antisymm a.data b.data hba hab
      cases a; cases b; simp_all⟩
    exact List.eq_of_perm_of_sorted
      ((List.perm_insertionSort strLE l₁).trans
        (h.trans (List.perm_insertionSort strLE l₂).symm))
      (List.sorted_insertionSort strLE l₁) (List.sorted_insertionSort strLE l₂)

/-- The result of `ValidateMountInfo`. -/
theorem ValidateMountInfo_fst (device : Device) (directCSIDrive : DirectCSIDrive) :
    (ValidateMountInfo device directCSIDrive).1 = true ↔
      device.FirstMountPoint = directCSIDrive.Status.Mountpoint ∧
      sortStrings device.FirstMountOptions = sortStrings directCSIDrive.Status.MountOptions := by
  unfold ValidateMountInfo
  by_cases h : device.FirstMountPoint = directCSIDrive.Status.Mountpoint
  · simp [h, deepEqualStrings]
  · simp [h]

/-- C5 (amended): for every device and record, except the pairs in which one
of the two mount-option slices is nil and the other is empty but not nil,
`ValidateMountInfo` returns true if and only if the device's first mount point
equals the record's mount point and the two option slices are equal as
multisets (the same members with the same number of repetitions, in any
order). -/
theorem ValidateMountInfo_iff_multiset (device : Device) (directCSIDrive : DirectCSIDrive)
    (hslip : ¬ nilAgainstEmpty device.FirstMountOptions directCSIDrive.Status.MountOptions) :
    (ValidateMountInfo device directCSIDrive).1 = true ↔
      device.FirstMountPoint = directCSIDrive.Status.Mountpoint ∧
      sameMultiset device.FirstMountOptions directCSIDrive.Status.MountOptions := by
  rw [ValidateMountInfo_fst]
  unfold sameMultiset sliceElems sortStrings
  unfold nilAgainstEmpty at hslip
  cases h1 : device.FirstMountOptions with
  | none =>
    cases h2 : directCSIDrive.Status.MountOptions with
    | none => simp
    | some l₂ =>
      have hne : l₂ ≠ [] := by
        intro h
        exact hslip (Or.inl ⟨h1, by rw [h2, h]⟩)
      simp [hne, eq_comm]
  | some l₁ =>
    cases h2 : directCSIDrive.Status.MountOptions with
    | none =>
      have hne : l₁ ≠ [] := by
        intro h
        exact hslip (Or.inr ⟨by rw [h1, h], h2⟩)
      simp [hne]
    | some l₂ => simp [insertionSort_eq_iff_perm]

/-- Witness of C5 (amended): the options `ro`, `noatime`, `ro` against
`noatime`, `ro`, `ro` give true; an unmounted device (nil options) against a
record with the option `rw` does not. -/
theorem ValidateMountInfo_iff_multiset_witness :
    (ValidateMountInfo
      { FirstMountPoint := "/mnt", FirstMountOptions := some ["ro", "noatime", "ro"] }
      { Status := { Mountpoint := "/mnt", MountOptions := some ["noatime", "ro", "ro"] } }).1
      = true ∧
    (ValidateMountInfo { FirstMountPoint := "", FirstMountOptions := none }
      { Status := { Mountpoint := "", MountOptions := some ["rw"] } }).1 ≠ true :=
  ⟨(ValidateMountInfo_iff_multiset _ _ (by simp [nilAgainstEmpty])).2
      ⟨rfl, by simp only [sameMultiset, sliceElems]; decide⟩,
   fun h => absurd
     ((ValidateMountInfo_iff_multiset { FirstMountPoint := "", FirstMountOptions := none }
        { Status := { Mountpoint := "", MountOptions := some ["rw"] } }
        (by simp [nilAgainstEmpty])).1 h).2
     (by simp [sameMultiset, sliceElems])⟩

/-- Counterexample to C5 as stated: the options `ro`, `ro` and the option `ro`
are equal as sets and the mount points are both `/mnt`, yet
`ValidateMountInfo` returns false. -/
theorem ValidateMountInfo_not_set_equality :
    sameMembers (some ["ro", "ro"]) (some ["ro"]) ∧
    (ValidateMountInfo
      { FirstMountPoint := "/mnt", FirstMountOptions := some ["ro", "ro"] }
      { Status := { Mountpoint := "/mnt", MountOptions := some ["ro"] } }).1 = false :=
  ⟨by intro o; simp [sliceElems], by decide⟩

/-- C6: the code at the failing input.  The device's options are the nil
slice and the record's the empty slice that is not nil: one is a permutation
of the other and the mount points are equal, yet `ValidateMountInfo` returns
false. -/
theorem ValidateMountInfo_nil_against_empty :
    sameMultiset none (some []) ∧
    (ValidateMountInfo { FirstMountPoint := "", FirstMountOptions := none }
      { Status := { Mountpoint := "", MountOptions := some [] } }).1 = false :=
  ⟨by simp [sameMultiset, sliceElems], by decide⟩

/-- C7: the code at the failing input.  Before the call the record's and the
device's mount options are `rw`, `noatime`; after `ValidateMountInfo` has
returned (with true) both hold `noatime`, `rw`: the record is not the record
that was passed in. -/
theorem ValidateMountInfo_sorts_its_arguments :
    (ValidateMountInfo
      { FirstMountPoint := "/mnt", FirstMountOptions := some ["rw", "noatime"] }
      { Status := { Mountpoint := "/mnt", MountOptions := some ["rw", "noatime"] } })
      = (true,
        { FirstMountPoint := "/mnt", FirstMountOptions := some ["noatime", "rw"] },
        { Status := { Mountpoint := "/mnt", MountOptions := some ["noatime", "rw"] } }) ∧
    ({ Status := { Mountpoint := "/mnt", MountOptions := some ["noatime", "rw"] } } : DirectCSIDrive)
      ≠ { Status := { Mountpoint := "/mnt", MountOptions := some ["rw", "noatime"] } } :=
  ⟨by decide, by decide⟩

/-! ## Properties of `getRootBlockPath` -/

/-- A call that returns within some recursion depth returns the same value
within any larger one. -/
theorem getRootBlockPath_mono (c : SysConsts) (fuel : Nat) (devName r : String)
    (h : getRootBlockPath c fuel devName = some r) :
    getRootBlockPath c (fuel + 1) devName = some r := by
  induction fuel generalizing devName with
  | zero => simp [getRootBlockPath] at h
  | succ n ih =>
    rw [getRootBlockPath] at h ⊢
    split_ifs at h ⊢ with h1 h2
    · exact h
    · exact ih _ h
    · exact h

/-- A character of a substring is a character of the string. -/
theorem containsChars_mem (sub : List Char) :
    ∀ s : List Char, containsChars sub s = true → ∀ ch ∈ sub, ch ∈ s
  | [], h, ch, hch => by
    simp only [containsChars, List.isPrefixOf_iff_prefix, decide_eq_true_eq] at h
    have := List.prefix_nil.1 h
    rw [this] at hch
    exact hch
  | c :: cs, h, ch, hch => by
    simp only [containsChars, Bool.or_eq_true, List.isPrefixOf_iff_prefix] at h
    rcases h with h | h
    · exact h.subset hch
    · exact List.mem_cons_of_mem _ (containsChars_mem sub cs h ch hch)

/-- The base name of a path is `/` or has no `/` in it. -/
theorem Base_no_slash (path : String) : Base path = "/" ∨ '/' ∉ (Base path).data := by
  unfold Base
  by_cases h1 : path.data = []
  · right
    rw [if_pos h1]
    decide
  · rw [if_neg h1]
    dsimp only
    split_ifs with h2
    · left; rfl
    · right
      simp only [List.mem_reverse]
      intro hmem
      have := List.mem_takeWhile_imp hmem
      simp at this

/-- The base name of a path does not contain a string that has a `/` in it
and is not `/` itself. -/
theorem Contains_Base_eq_false (path root : String) (hslash : '/' ∈ root.data)
    (hne : root ≠ "/") : Contains (Base path) root = false := by
  cases hc : Contains (Base path) root with
  | false => rfl
  | true =>
    exfalso
    have hmem := containsChars_mem root.data (Base path).data hc '/' hslash
    rcases Base_no_slash path with hb | hb
    · rw [hb] at hc
      simp only [Contains, containsChars, Bool.or_eq_true, List.isPrefixOf_iff_prefix] at hc
      apply hne
      have hlen : root.data.length ≤ 1 := by
        rcases hc with h | h
        · exact h.length_le
        · exact le_trans h.length_le (Nat.zero_le 1)
      obtain ⟨l⟩ := root
      match l, hslash, hlen with
      | [ch], hs, _ => simp at hs; rw [← hs]
    · exact hb hmem

/-- A name that neither begins with the host device root nor contains the
private device root is resolved without a recursive call. -/
theorem getRootBlockPath_default_isSome (c : SysConsts) (fuel : Nat) (devName : String)
    (h2 : Contains devName c.DirectCSIDevRoot = false) :
    ∃ r, getRootBlockPath c (fuel + 1) devName = some r := by
  rw [getRootBlockPath]
  by_cases h1 : HasPrefix devName c.HostDevRoot = true
  · exact ⟨_, by rw [if_pos h1]⟩
  · exact ⟨_, by rw [if_neg h1, if_neg (by simp [h2])]⟩

theorem mem_replaceChars (old new : List Char) (ch : Char) :
    ∀ (s : List Char) (skip budget : Nat),
      ch ∈ replaceChars old new skip budget s → ch ∈ s ∨ ch ∈ new
  | [], _, _, h => by simp [replaceChars] at h
  | c :: cs, skip + 1, budget, h => by
    rw [replaceChars] at h
    rcases mem_replaceChars old new ch cs skip budget h with h | h
    · exact Or.inl (List.mem_cons_of_mem _ h)
    · exact Or.inr h
  | c :: cs, 0, 0, h => by
    rw [replaceChars] at h
    rcases List.mem_cons.1 h with h | h
    · exact Or.inl (h ▸ List.mem_cons_self _ _)
    · rcases mem_replaceChars old new ch cs 0 0 h with h | h
      · exact Or.inl (List.mem_cons_of_mem _ h)
      · exact Or.inr h
  | c :: cs, 0, budget + 1, h => by
    rw [replaceChars] at h
    split_ifs at h
    · rcases List.mem_append.1 h with h | h
      · exact Or.inr h
      · rcases mem_replaceChars old new ch cs _ budget h with h | h
        · exact Or.inl (List.mem_cons_of_mem _ h)
        · exact Or.inr h
    · rcases List.mem_cons.1 h with h | h
      · exact Or.inl (h ▸ List.mem_cons_self _ _)
      · rcases mem_replaceChars old new ch cs 0 (budget + 1) h with h | h
        · exact Or.inl (List.mem_cons_of_mem _ h)
        · exact Or.inr h

theorem mem_insertChars (new : List Char) (ch : Char) :
    ∀ (budget : Nat) (s : List Char), ch ∈ insertChars new budget s → ch ∈ s ∨ ch ∈ new
  | 0, s, h => by rw [insertChars] at h; exact Or.inl h
  | _ + 1, [], h => by rw [insertChars] at h; exact Or.inr h
  | budget + 1, c :: cs, h => by
    rw [insertChars] at h
    rcases List.mem_append.1 h with h | h
    · exact Or.inr h
    · rcases List.mem_cons.1 h with h | h
      · exact Or.inl (h ▸ List.mem_cons_self _ _)
      · rcases mem_insertChars new ch budget cs h with h | h
        · exact Or.inl (List.mem_cons_of_mem _ h)
        · exact Or.inr h

/-- A character of `strings.Replace(s, old, new, n)` is a character of `s` or
of `new`. -/
theorem mem_Replace (s old new : String) (n : Option Nat) (ch : Char)
    (h : ch ∈ (Replace s old new n).data) : ch ∈ s.data ∨ ch ∈ new.data := by
  unfold Replace at h
  dsimp only at h
  split_ifs at h
  · exact Or.inl h
  · exact mem_insertChars _ _ _ _ h
  · exact mem_replaceChars _ _ _ _ _ _ h

/-- A character of a path element is a character of the path. -/
theorem mem_splitSlash (ch : Char) :
    ∀ (l e : List Char), e ∈ splitSlash l → ch ∈ e → ch ∈ l
  | [], e, he, hch => by
    simp [splitSlash] at he
    rw [he] at hch
    exact hch
  | c :: cs, e, he, hch => by
    rw [splitSlash] at he
    split_ifs at he with hc
    · rcases List.mem_cons.1 he with h | h
      · rw [h] at hch; exact absurd hch (List.not_mem_nil _)
      · exact List.mem_cons_of_mem _ (mem_splitSlash ch cs e h hch)
    · cases hs : splitSlash cs with
      | nil =>
        rw [hs] at he
        simp at he
        rw [he] at hch
        simp at hch
        rw [hch]
        exact List.mem_cons_self _ _
      | cons e' es =>
        rw [hs] at he
        rcases List.mem_cons.1 he with h | h
        · rw [h] at hch
          rcases List.mem_cons.1 hch with h' | h'
          · rw [h']; exact List.mem_cons_self _ _
          · exact List.mem_cons_of_mem _
              (mem_splitSlash ch cs e' (by rw [hs]; exact List.mem_cons_self _ _) h')
        · exact List.mem_cons_of_mem _
            (mem_splitSlash ch cs e (by rw [hs]; exact List.mem_cons_of_mem _ h) hch)

/-- Elements without a `.` only push onto the stack of `filepath.Clean`. -/
theorem foldl_cleanStep_no_dot (rooted : Bool) :
    ∀ (es : List (List Char)) (stack : List (List Char)), (∀ e ∈ es, '.' ∉ e) →
      ∃ pre, es.foldl (cleanStep rooted) stack = pre ++ stack
  | [], stack, _ => ⟨[], rfl⟩
  | e :: es, stack, h => by
    have he : '.' ∉ e := h e (List.mem_cons_self _ _)
    have hes : ∀ e' ∈ es, '.' ∉ e' := fun e' h' => h e' (List.mem_cons_of_mem _ h')
    have h1 : e ≠ ['.'] := by intro h'; rw [h'] at he; simp at he
    have h2 : e ≠ ['.', '.'] := by intro h'; rw [h'] at he; simp at he
    rw [List.foldl_cons]
    by_cases h0 : e = []
    · have : cleanStep rooted stack e = stack := by simp [cleanStep, h0]
      rw [this]
      exact foldl_cleanStep_no_dot rooted es stack hes
    · have : cleanStep rooted stack e = e :: stack := by simp [cleanStep, h0, h1, h2]
      rw [this]
      obtain ⟨pre, hpre⟩ := foldl_cleanStep_no_dot rooted es (e :: stack) hes
      exact ⟨pre ++ [e], by rw [hpre]; simp⟩

/-- Joining a name without a `.` under `/dev` gives a path that begins with
`/dev`. -/
theorem HasPrefix_Join_dev (name : String) (h : '.' ∉ name.data) :
    HasPrefix (Join "/dev" name) "/dev" = true := by
  have hsplit : splitSlash ('/' :: 'd' :: 'e' :: 'v' :: '/' :: name.data)
      = [] :: ['d', 'e', 'v'] :: splitSlash name.data := by
    simp [splitSlash]
  obtain ⟨pre, hpre⟩ := foldl_cleanStep_no_dot true (splitSlash name.data) [['d', 'e', 'v']]
    (fun e he hch => h (mem_splitSlash '.' name.data e he hch))
  have hJ : Join "/dev" name = Clean ⟨'/' :: 'd' :: 'e' :: 'v' :: '/' :: name.data⟩ := by
    unfold Join
    rw [if_pos (by decide)]
    rfl
  rw [hJ]
  unfold Clean
  simp only [hsplit, List.foldl_cons]
  have hc1 : cleanStep true [] [] = [] := by simp [cleanStep]
  have hc2 : cleanStep true [] ['d', 'e', 'v'] = [['d', 'e', 'v']] := by simp [cleanStep]
  simp [hc1, hc2, hpre, HasPrefix, List.intercalate, List.intersperse]
  cases pre.reverse <;> simp [List.intersperse]


/-- A character of the base name of a non-empty path is `/` or a character of
the path. -/
theorem mem_Base (path : String) (ch : Char) (hne : path.data ≠ [])
    (h : ch ∈ (Base path).data) : ch = '/' ∨ ch ∈ path.data := by
  unfold Base at h
  rw [if_neg hne] at h
  dsimp only at h
  split_ifs at h with h2
  · left
    simpa using h
  · right
    rw [List.mem_reverse] at h
    have h3 := (List.takeWhile_sublist _).subset h
    have h4 := (List.dropWhile_sublist _).subset h3
    exact List.mem_reverse.1 h4

/-- The default branch of `getRootBlockPath`. -/
theorem getRootBlockPath_default (c : SysConsts) (fuel : Nat) (devName : String)
    (h1 : HasPrefix devName c.HostDevRoot = false)
    (h2 : Contains devName c.DirectCSIDevRoot = false) :
    getRootBlockPath c (fuel + 1) devName = some (Join c.HostDevRoot
      (ReplaceAll (Replace devName c.DirectCSIPartitionInfix "" (some 1))
        c.DirectCSIPartitionInfix c.HostPartitionInfix)) := by
  rw [getRootBlockPath]
  simp [h1, h2]

/-- With the constants of package `sys`, the default branch sends a name
without a `.` to a path that begins with `/dev`. -/
theorem getRootBlockPath_default_under_root (fuel : Nat) (devName : String)
    (hdot : '.' ∉ devName.data)
    (h1 : HasPrefix devName sysConsts.HostDevRoot = false)
    (h2 : Contains devName sysConsts.DirectCSIDevRoot = false) :
    ∃ r, getRootBlockPath sysConsts (fuel + 1) devName = some r ∧
      HasPrefix r sysConsts.HostDevRoot = true := by
  refine ⟨_, getRootBlockPath_default sysConsts fuel devName h1 h2, ?_⟩
  apply HasPrefix_Join_dev
  intro hmem
  rcases mem_Replace _ _ _ _ _ hmem with h | h
  · rcases mem_Replace _ _ _ _ _ h with h | h
    · exact hdot h
    · exact absurd h (by decide)
  · exact absurd h (by decide)

/-- With the constants of package `sys`, a name without a `.` is resolved to a
path that begins with `/dev`. -/
theorem getRootBlockPath_under_root_of_no_dot (devName : String) (hdot : '.' ∉ devName.data) :
    ∃ r, getRootBlockPath sysConsts 2 devName = some r ∧
      HasPrefix r sysConsts.HostDevRoot = true := by
  cases h1 : HasPrefix devName sysConsts.HostDevRoot with
  | true => exact ⟨devName, by simp [getRootBlockPath, h1], h1⟩
  | false =>
    cases h2 : Contains devName sysConsts.DirectCSIDevRoot with
    | false => exact getRootBlockPath_default_under_root 1 devName hdot h1 h2
    | true =>
      have hstep : getRootBlockPath sysConsts 2 devName
          = getRootBlockPath sysConsts 1 (Base devName) := by
        rw [getRootBlockPath]
        simp [h1, h2]
      rw [hstep]
      have hne : devName.data ≠ [] := by
        intro he
        unfold Contains at h2
        rw [he] at h2
        exact absurd h2 (by decide)
      have hdotB : '.' ∉ (Base devName).data := by
        intro hmem
        rcases mem_Base devName '.' hne hmem with h | h
        · exact absurd h (by decide)
        · exact hdot h
      cases h3 : HasPrefix (Base devName) sysConsts.HostDevRoot with
      | true => exact ⟨Base devName, by simp [getRootBlockPath, h3], h3⟩
      | false =>
        exact getRootBlockPath_default_under_root 0 (Base devName) hdotB h3
          (Contains_Base_eq_false devName sysConsts.DirectCSIDevRoot (by decide) (by decide))

/-- Counterexample to C8 as stated: with the constants of package `sys` the
name `..` is resolved to `/`, and `/` is not resolved to itself (it is
resolved to `/dev`). -/
theorem getRootBlockPath_not_idempotent :
    Resolves sysConsts ".." "/" ∧ ¬ Resolves sysConsts "/" "/" := by
  refine ⟨⟨1, by decide⟩, ?_⟩
  rintro ⟨fuel, h⟩
  cases fuel with
  | zero => simp [getRootBlockPath] at h
  | succ n =>
    have h2 : getRootBlockPath sysConsts (n + 1) "/" = some "/dev" := rfl
    rw [h2] at h
    exact absurd h (by decide)

/-- C8 (amended): path resolution is idempotent on every name whose resolved
path begins with the host device root: if `getRootBlockPath(x)` returns `r`
and `r` begins with the host device root, then `getRootBlockPath(r)` returns
`r`.  With the constants of package `sys` this covers every name without a
`.`: such a name is resolved, and its resolved path is resolved to itself. -/
theorem getRootBlockPath_idempotent_under_root :
    (∀ (c : SysConsts) (x r : String),
      Resolves c x r → HasPrefix r c.HostDevRoot = true → Resolves c r r) ∧
    (∀ x : String, '.' ∉ x.data →
      ∃ r, Resolves sysConsts x r ∧ Resolves sysConsts r r) := by
  have key : ∀ (c : SysConsts) (r : String),
      HasPrefix r c.HostDevRoot = true → Resolves c r r :=
    fun c r hr => ⟨1, by simp [getRootBlockPath, hr]⟩
  refine ⟨fun c _ r _ hr => key c r hr, ?_⟩
  intro x hdot
  obtain ⟨r, hr, hp⟩ := getRootBlockPath_under_root_of_no_dot x hdot
  exact ⟨r, ⟨2, hr⟩, key sysConsts r hp⟩

/-- Witness of C8 (amended): the name `sda-part-1` is resolved to `/dev/sda1`,
which is resolved to itself, and the resolved path of `nvme0n1-part-2` is
resolved to itself. -/
theorem getRootBlockPath_idempotent_under_root_witness :
    Resolves sysConsts "sda-part-1" "/dev/sda1" ∧
    Resolves sysConsts "/dev/sda1" "/dev/sda1" ∧
    ∃ r, Resolves sysConsts "nvme0n1-part-2" r ∧ Resolves sysConsts r r :=
  ⟨⟨1, by decide⟩,
    getRootBlockPath_idempotent_under_root.1 sysConsts "sda-part-1" "/dev/sda1"
      ⟨1, by decide⟩ (by decide),
    getRootBlockPath_idempotent_under_root.2 "nvme0n1-part-2" (by decide)⟩

/-- C9: a device name that begins with the host device root is returned
unchanged, whatever else it contains; `getRootBlockPath("/dev/sda1")` is
`/dev/sda1`. -/
theorem getRootBlockPath_of_host_root (c : SysConsts) (fuel : Nat) (devName : String)
    (h : HasPrefix devName c.HostDevRoot = true) :
    getRootBlockPath c (fuel + 1) devName = some devName ∧
    getRootBlockPath sysConsts (fuel + 1) "/dev/sda1" = some "/dev/sda1" := by
  constructor
  · simp [getRootBlockPath, h]
  · rfl

/-- Witness of C9: a name under the host device root that contains the private
device root and the partition infix. -/
theorem getRootBlockPath_of_host_root_witness :
    getRootBlockPath sysConsts 1 "/dev/var/lib/direct-csi/devices/sda-part-1"
      = some "/dev/var/lib/direct-csi/devices/sda-part-1" :=
  (getRootBlockPath_of_host_root sysConsts 0 "/dev/var/lib/direct-csi/devices/sda-part-1"
    (by decide)).1

/-- C10: for a device name that does not begin with the host device root but
contains the private device root, `getRootBlockPath(name)` is
`getRootBlockPath` of the base name of `name`: one more level of recursion
gives the result of the call on the base name, the two calls return the same
values, and both do return when the private device root has a `/` in it and is
not `/` itself. -/
theorem getRootBlockPath_of_private_root (c : SysConsts) (devName : String)
    (h1 : HasPrefix devName c.HostDevRoot = false)
    (h2 : Contains devName c.DirectCSIDevRoot = true) :
    (∀ fuel, getRootBlockPath c (fuel + 1) devName = getRootBlockPath c fuel (Base devName)) ∧
    (∀ r, Resolves c devName r ↔ Resolves c (Base devName) r) ∧
    ('/' ∈ c.DirectCSIDevRoot.data → c.DirectCSIDevRoot ≠ "/" →
      ∃ r, getRootBlockPath c 2 devName = some r ∧
        getRootBlockPath c 1 (Base devName) = some r) := by
  have step : ∀ fuel, getRootBlockPath c (fuel + 1) devName
      = getRootBlockPath c fuel (Base devName) := by
    intro fuel
    rw [getRootBlockPath]
    simp [h1, h2]
  refine ⟨step, ?_, ?_⟩
  · intro r
    constructor
    · rintro ⟨fuel, h⟩
      cases fuel with
      | zero => simp [getRootBlockPath] at h
      | succ n => exact ⟨n, by rw [← step n]; exact h⟩
    · rintro ⟨fuel, h⟩
      exact ⟨fuel + 1, by rw [step fuel]; exact h⟩
  · intro hslash hne
    obtain ⟨r, hr⟩ := getRootBlockPath_default_isSome c 0 (Base devName)
      (Contains_Base_eq_false devName c.DirectCSIDevRoot hslash hne)
    exact ⟨r, by rw [step 1]; exact hr, hr⟩

/-- Witness of C10: a partition device under the private device root. -/
theorem getRootBlockPath_of_private_root_witness :
    getRootBlockPath sysConsts 2 "/var/lib/direct-csi/devices/sda-part-1" = some "/dev/sda1" ∧
    getRootBlockPath sysConsts 1 (Base "/var/lib/direct-csi/devices/sda-part-1")
      = some "/dev/sda1" :=
  ⟨((getRootBlockPath_of_private_root sysConsts "/var/lib/direct-csi/devices/sda-part-1"
      (by decide) (by decide)).1 1).trans (by decide), by decide⟩


/-- The empty string is contained in every string. -/
theorem containsChars_nil (s : List Char) : containsChars [] s = true := by
  cases s <;> simp [containsChars]

/-- Without an occurrence of `old` nothing is replaced. -/
theorem replaceChars_of_not_contains (old new : List Char) :
    ∀ (s : List Char) (budget : Nat), containsChars old s = false →
      replaceChars old new 0 budget s = s
  | [], _, _ => by simp [replaceChars]
  | c :: cs, 0, h => by
    simp only [containsChars, Bool.or_eq_false_iff] at h
    rw [replaceChars, replaceChars_of_not_contains old new cs 0 h.2]
  | c :: cs, budget + 1, h => by
    simp only [containsChars, Bool.or_eq_false_iff] at h
    rw [replaceChars, if_neg (by simp [h.1]),
      replaceChars_of_not_contains old new cs (budget + 1) h.2]

/-- A string that does not contain `old` is left as it is by
`strings.Replace`. -/
theorem Replace_of_not_contains (s old new : String) (n : Option Nat)
    (h : Contains s old = false) : Replace s old new n = s := by
  unfold Replace
  dsimp only
  split_ifs with h1 h2
  · rfl
  · unfold Contains at h
    rw [h2, containsChars_nil] at h
    exact absurd h (by decide)
  · unfold Contains at h
    rw [replaceChars_of_not_contains _ _ _ _ h]

/-- With no replacement left `replaceChars` passes over the characters still
to be skipped and keeps the others. -/
theorem replaceChars_budget_zero (old new : List Char) :
    ∀ (s : List Char) (skip : Nat), replaceChars old new skip 0 s = s.drop skip
  | [], skip => by simp [replaceChars]
  | c :: cs, 0 => by
    rw [replaceChars, replaceChars_budget_zero old new cs 0]
    rfl
  | c :: cs, skip + 1 => by
    rw [replaceChars, replaceChars_budget_zero old new cs skip]
    rfl

/-- Skipping `skip` characters first is dropping them. -/
theorem replaceChars_skip (old new : List Char) :
    ∀ (s : List Char) (skip budget : Nat),
      replaceChars old new skip budget s = replaceChars old new 0 budget (s.drop skip)
  | [], skip, budget => by simp [replaceChars]
  | c :: cs, 0, budget => rfl
  | c :: cs, skip + 1, budget => by
    rw [replaceChars, replaceChars_skip old new cs skip budget]
    rfl

/-- The first occurrence of `old` splits the list into what is before it,
`old` and what is after it. -/
theorem cutAtFirst_eq (old : List Char) :
    ∀ (s a b : List Char), cutAtFirst old s = some (a, b) → s = a ++ old ++ b
  | [], a, b, h => by
    rw [cutAtFirst] at h
    split_ifs at h with h0
    simp only [Option.some.injEq, Prod.mk.injEq] at h
    rw [← h.1, ← h.2, h0]
    rfl
  | c :: cs, a, b, h => by
    rw [cutAtFirst] at h
    split_ifs at h with h0
    · simp only [Option.some.injEq, Prod.mk.injEq] at h
      rw [← h.1, ← h.2, List.nil_append]
      obtain ⟨t, ht⟩ := List.isPrefixOf_iff_prefix.1 h0
      rw [← ht, List.drop_left]
    · simp only [Option.map_eq_some'] at h
      obtain ⟨p, hp, hq⟩ := h
      simp only [Prod.mk.injEq] at hq
      have := cutAtFirst_eq old cs p.1 p.2 hp
      rw [← hq.1, ← hq.2, this]
      simp

/-- One replacement of `replaceChars`, at the first occurrence of `old`. -/
theorem replaceChars_step (old new : List Char) (hold : old ≠ []) (budget : Nat) :
    ∀ s : List Char, replaceChars old new 0 (budget + 1) s =
      match cutAtFirst old s with
      | none => s
      | some (a, r) => a ++ new ++ replaceChars old new 0 budget r
  | [] => by simp [replaceChars, cutAtFirst, hold]
  | c :: cs => by
    rw [replaceChars, cutAtFirst]
    by_cases h0 : old.isPrefixOf (c :: cs) = true
    · rw [if_pos h0, if_pos h0]
      simp only [List.nil_append]
      rw [replaceChars_skip]
      obtain ⟨o, os, rfl⟩ := List.exists_cons_of_ne_nil hold
      simp
    · rw [if_neg h0, if_neg h0, replaceChars_step old new hold budget cs]
      cases cutAtFirst old cs with
      | none => rfl
      | some p => rfl

/-- There is at least one piece. -/
theorem piecesBetween_ne_nil (old : List Char) :
    ∀ (n : Nat) (s : List Char), piecesBetween old n s ≠ []
  | 0, s => by simp [piecesBetween]
  | n + 1, s => by
    rw [piecesBetween]
    cases cutAtFirst old s with
    | none => simp
    | some p => simp

/-- Putting a piece before a list of pieces that is not empty. -/
theorem intercalate_cons_of_ne_nil (sep a : List Char) (ps : List (List Char))
    (h : ps ≠ []) : List.intercalate sep (a :: ps) = a ++ sep ++ List.intercalate sep ps := by
  obtain ⟨p, ps', rfl⟩ := List.exists_cons_of_ne_nil h
  simp [List.intercalate, List.intersperse]

/-- With enough replacements `replaceChars` puts `new` between the pieces. -/
theorem replaceChars_eq_intercalate (old new : List Char) (hold : old ≠ []) :
    ∀ (n : Nat) (s : List Char), s.length ≤ n →
      replaceChars old new 0 (n + 1) s = List.intercalate new (piecesBetween old n s)
  | 0, s, h => by
    have hs : s = [] := List.length_eq_zero.1 (Nat.le_zero.1 h)
    rw [hs]
    simp [replaceChars, piecesBetween, List.intercalate]
  | n + 1, s, h => by
    rw [replaceChars_step old new hold (n + 1) s, piecesBetween]
    cases hc : cutAtFirst old s with
    | none => simp [List.intercalate]
    | some p =>
      obtain ⟨a, r⟩ := p
      have hs := cutAtFirst_eq old s a r hc
      have hlen : r.length ≤ n := by
        have h1 : s.length = a.length + old.length + r.length := by
          rw [hs]
          simp only [List.length_append]
        have h2 : 0 < old.length := List.length_pos.2 hold
        omega
      simp only
      rw [replaceChars_eq_intercalate old new hold n r hlen,
        intercalate_cons_of_ne_nil _ _ _ (piecesBetween_ne_nil old n r)]

/-- Putting `old` back between the pieces gives the list again. -/
theorem intercalate_piecesBetween_self (old : List Char) :
    ∀ (n : Nat) (s : List Char), List.intercalate old (piecesBetween old n s) = s
  | 0, s => by simp [piecesBetween, List.intercalate]
  | n + 1, s => by
    rw [piecesBetween]
    cases hc : cutAtFirst old s with
    | none => simp [List.intercalate]
    | some p =>
      obtain ⟨a, r⟩ := p
      simp only
      rw [intercalate_cons_of_ne_nil _ _ _ (piecesBetween_ne_nil old n r),
        intercalate_piecesBetween_self old n r]
      exact (cutAtFirst_eq old s a r hc).symm

/-- For an `old` that is not empty `strings.Replace(s, old, "", 1)` is `s`
without the first occurrence of `old`. -/
theorem Replace_one_eq_withoutFirst (s old : String) (hold : old ≠ "") :
    Replace s old "" (some 1) = ⟨withoutFirst old.data s.data⟩ := by
  have hd : old.data ≠ [] := by
    intro h
    apply hold
    cases old
    simp_all
  unfold Replace
  simp only [Option.getD_some]
  rw [if_neg (by simp [hold]), if_neg hd, replaceChars_step old.data _ hd 0 s.data]
  unfold withoutFirst
  cases cutAtFirst old.data s.data with
  | none => rfl
  | some p =>
    simp only [replaceChars_budget_zero, List.drop_zero, List.append_nil]

/-- For an `old` that is not empty `strings.ReplaceAll(s, old, new)` is `s`
with every occurrence of `old` replaced by `new`. -/
theorem ReplaceAll_eq_withEveryReplaced (s old new : String) (hold : old ≠ "") :
    ReplaceAll s old new = ⟨withEveryReplaced old.data new.data s.data⟩ := by
  have hd : old.data ≠ [] := by
    intro h
    apply hold
    cases old
    simp_all
  unfold ReplaceAll Replace withEveryReplaced
  simp only [Option.getD_none]
  by_cases he : old = new
  · rw [if_pos (Or.inl he), ← he, intercalate_piecesBetween_self]
  · rw [if_neg (by simp [he]), if_neg hd,
      replaceChars_eq_intercalate old.data new.data hd s.data.length s.data (le_refl _)]

/-- Counterexample to C11 as stated: with the constants of package `sys` the
name `sda-part-1` neither begins with `/dev` nor contains the private device
root; it is resolved to `/dev/sda1`, and not to the join of `/dev` with the
name in which `-part-` is replaced by `p`, which is `/dev/sdap1`. -/
theorem getRootBlockPath_removes_first_infix :
    HasPrefix "sda-part-1" sysConsts.HostDevRoot = false ∧
    Contains "sda-part-1" sysConsts.DirectCSIDevRoot = false ∧
    Resolves sysConsts "sda-part-1" "/dev/sda1" ∧
    Join sysConsts.HostDevRoot (infixReplaced sysConsts "sda-part-1") = "/dev/sdap1" ∧
    ¬ Resolves sysConsts "sda-part-1"
      (Join sysConsts.HostDevRoot (infixReplaced sysConsts "sda-part-1")) := by
  refine ⟨by decide, by decide, ⟨1, by decide⟩, by decide, ?_⟩
  rintro ⟨fuel, h⟩
  cases fuel with
  | zero => simp [getRootBlockPath] at h
  | succ n =>
    have h2 : getRootBlockPath sysConsts (n + 1) "sda-part-1" = some "/dev/sda1" := rfl
    rw [h2] at h
    exact absurd h (by decide)

/-- C11 (amended): for a partition infix that is not empty, a device name
that neither begins with the host device root nor contains the private device
root is resolved to the path-join of the host device root with the name
obtained in two steps: the first occurrence of the orchestrator's partition
infix is removed, and then, in the name so obtained, every occurrence of the
orchestrator's partition infix is replaced by the host's partition infix.  A
name without the orchestrator's partition infix is joined under the host
device root as it is. -/
theorem getRootBlockPath_of_plain_name (c : SysConsts) (devName : String)
    (hnonempty : c.DirectCSIPartitionInfix ≠ "")
    (h1 : HasPrefix devName c.HostDevRoot = false)
    (h2 : Contains devName c.DirectCSIDevRoot = false) :
    (∀ fuel, getRootBlockPath c (fuel + 1) devName
      = some (Join c.HostDevRoot (infixRemovedThenReplaced c devName))) ∧
    (Contains devName c.DirectCSIPartitionInfix = false →
      ∀ fuel, getRootBlockPath c (fuel + 1) devName = some (Join c.HostDevRoot devName)) := by
  have key := fun fuel => getRootBlockPath_default c fuel devName h1 h2
  constructor
  · intro fuel
    rw [key fuel, ReplaceAll_eq_withEveryReplaced _ _ _ hnonempty,
      Replace_one_eq_withoutFirst _ _ hnonempty]
    rfl
  · intro h3 fuel
    rw [key fuel, Replace_of_not_contains _ _ _ _ h3, ReplaceAll,
      Replace_of_not_contains _ _ _ _ h3]

/-- Witness of C11 (amended): `nvme0n1-part--part-1` is resolved to
`/dev/nvme0n1p1`; `x-par-part-t-1`, in which the removal of the one occurrence
of `-part-` leaves a new one, is resolved to `/dev/xp1`; `dm-0` is resolved
to `/dev/dm-0`. -/
theorem getRootBlockPath_of_plain_name_witness :
    getRootBlockPath sysConsts 1 "nvme0n1-part--part-1" = some "/dev/nvme0n1p1" ∧
    getRootBlockPath sysConsts 1 "x-par-part-t-1" = some "/dev/xp1" ∧
    getRootBlockPath sysConsts 1 "dm-0" = some "/dev/dm-0" :=
  ⟨((getRootBlockPath_of_plain_name sysConsts "nvme0n1-part--part-1" (by decide) (by decide)
      (by decide)).1 0).trans (by decide),
   ((getRootBlockPath_of_plain_name sysConsts "x-par-part-t-1" (by decide) (by decide)
      (by decide)).1 0).trans (by decide),
   ((getRootBlockPath_of_plain_name sysConsts "dm-0" (by decide) (by decide) (by decide)).2
      (by decide) 0).trans (by decide)⟩

/-- C18: when the private device root has a `/` in it and is not `/` itself
(as the one of package `sys`), `getRootBlockPath` returns on every input with
at most one recursive call: the base name of a path does not contain the
private device root, so the call on the base name returns without a further
call. -/
theorem getRootBlockPath_terminates (c : SysConsts)
    (hslash : '/' ∈ c.DirectCSIDevRoot.data) (hne : c.DirectCSIDevRoot ≠ "/")
    (devName : String) :
    (∃ r, getRootBlockPath c 2 devName = some r) ∧
    Contains (Base devName) c.DirectCSIDevRoot = false ∧
    (∃ r, getRootBlockPath c 1 (Base devName) = some r) := by
  have hB := Contains_Base_eq_false devName c.DirectCSIDevRoot hslash hne
  have hrec := getRootBlockPath_default_isSome c 0 (Base devName) hB
  refine ⟨?_, hB, hrec⟩
  cases h1 : HasPrefix devName c.HostDevRoot with
  | true => exact ⟨devName, by simp [getRootBlockPath, h1]⟩
  | false =>
    cases h2 : Contains devName c.DirectCSIDevRoot with
    | false => exact getRootBlockPath_default_isSome c 1 devName h2
    | true =>
      obtain ⟨r, hr⟩ := hrec
      refine ⟨r, ?_⟩
      rw [getRootBlockPath]
      simp [h1, h2, hr]

/-- Witness of C18: the constants of package `sys` and a device under the
private device root. -/
theorem getRootBlockPath_terminates_witness :
    (∃ r, getRootBlockPath sysConsts 2 "/var/lib/direct-csi/devices/sdb-part-3" = some r) ∧
    Contains (Base "/var/lib/direct-csi/devices/sdb-part-3") sysConsts.DirectCSIDevRoot = false ∧
    (∃ r, getRootBlockPath sysConsts 1 (Base "/var/lib/direct-csi/devices/sdb-part-3") = some r) :=
  getRootBlockPath_terminates sysConsts (by decide) (by decide)
    "/var/lib/direct-csi/devices/sdb-part-3"


/-! ## The conversion to `uint32` in `ValidateUDevInfo` -/

/-- The conversion `uint32(x)` does not see a multiple of `2^32`. -/
theorem uint32_add_mul (x k : Int) : uint32 (x + k * 4294967296) = uint32 x := by
  unfold uint32
  rw [Int.add_mul_emod_self]

/-- C19: `ValidateUDevInfo` sees the device's major and minor numbers only
through `uint32(...)`: two devices that are identical except that their major
numbers, or their minor numbers, differ by a multiple of `2^32` get the same
result against every record. -/
theorem ValidateUDevInfo_numbers_mod_uint32 (device : Device) (directCSIDrive : DirectCSIDrive)
    (k : Int) :
    ValidateUDevInfo { device with Major := device.Major + k * 4294967296 } directCSIDrive
      = ValidateUDevInfo device directCSIDrive ∧
    ValidateUDevInfo { device with Minor := device.Minor + k * 4294967296 } directCSIDrive
      = ValidateUDevInfo device directCSIDrive := by
  constructor <;>
  · unfold ValidateUDevInfo
    simp only [uint32_add_mul]

/-! ## Properties of `validateSysInfo`, `validateDevInfo` and `IsFormatRequested` -/

/-- On values below `2^63` the conversion `int64(x)` keeps the value. -/
theorem int64_of_lt (x : Nat) (h : x < 9223372036854775808) : int64 x = (x : Int) := by
  unfold int64
  have h1 : x % 18446744073709551616 = x := Nat.mod_eq_of_lt (by omega)
  rw [h1, if_pos h]

/-- C15: for a device whose size is representable as a signed 64-bit integer,
`validateSysInfo` returns true if and only if the read-only flags are equal,
the record's total capacity is the device's size and the partitioned flags are
equal; the device's removable flag, hidden flag and holders do not influence
the result. -/
theorem validateSysInfo_iff (device : Device) (directCSIDrive : DirectCSIDrive)
    (hsize : device.Size < 9223372036854775808) :
    (validateSysInfo device directCSIDrive = true ↔
      directCSIDrive.Status.ReadOnly = device.ReadOnly ∧
      directCSIDrive.Status.TotalCapacity = (device.Size : Int) ∧
      directCSIDrive.Status.Partitioned = device.Partitioned) ∧
    (∀ (removable hidden : Bool) (holders : Option (List String)),
      validateSysInfo
        { device with Removable := removable, Hidden := hidden, Holders := holders }
        directCSIDrive = validateSysInfo device directCSIDrive) := by
  constructor
  · unfold validateSysInfo
    rw [int64_of_lt _ hsize]
    by_cases h1 : directCSIDrive.Status.ReadOnly = device.ReadOnly <;>
    by_cases h2 : directCSIDrive.Status.TotalCapacity = (device.Size : Int) <;>
    by_cases h3 : directCSIDrive.Status.Partitioned = device.Partitioned <;>
    simp [h1, h2, h3]
  · intro removable hidden holders
    rfl

/-- Witness of C15: a read-only disk of one terabyte against its record, and
against a record whose capacity is one byte short. -/
theorem validateSysInfo_iff_witness :
    validateSysInfo { ReadOnly := true, Size := 1000204886016, Removable := true }
      { Status := { ReadOnly := true, TotalCapacity := 1000204886016 } } = true ∧
    validateSysInfo { ReadOnly := true, Size := 1000204886016 }
      { Status := { ReadOnly := true, TotalCapacity := 1000204886015 } } ≠ true :=
  ⟨((validateSysInfo_iff { ReadOnly := true, Size := 1000204886016, Removable := true }
      { Status := { ReadOnly := true, TotalCapacity := 1000204886016 } } (by decide)).1).2
      ⟨rfl, rfl, rfl⟩,
   fun h => absurd (((validateSysInfo_iff { ReadOnly := true, Size := 1000204886016 }
      { Status := { ReadOnly := true, TotalCapacity := 1000204886015 } } (by decide)).1).1
      h).2.1 (by decide)⟩

/-- C16: `validateDevInfo` returns true if and only if the record's filesystem
UUID equals the device's and the swap-on flags are equal; the comparison is
strict: an empty filesystem UUID of the device against a filesystem UUID of
the record that is not empty gives false. -/
theorem validateDevInfo_iff (device : Device) (directCSIDrive : DirectCSIDrive) :
    (validateDevInfo device directCSIDrive = true ↔
      directCSIDrive.Status.FilesystemUUID = device.FSUUID ∧
      directCSIDrive.Status.SwapOn = device.SwapOn) ∧
    (device.FSUUID = "" → directCSIDrive.Status.FilesystemUUID ≠ "" →
      validateDevInfo device directCSIDrive = false) := by
  unfold validateDevInfo
  constructor
  · by_cases h1 : directCSIDrive.Status.FilesystemUUID = device.FSUUID <;>
    by_cases h2 : directCSIDrive.Status.SwapOn = device.SwapOn <;>
    simp [h1, h2]
  · intro h1 h2
    have h3 : directCSIDrive.Status.FilesystemUUID ≠ device.FSUUID := by
      rw [h1]
      exact h2
    simp [h3]

/-- Witness of C16: the device reports no filesystem UUID, the record holds
one. -/
theorem validateDevInfo_iff_witness :
    validateDevInfo { FSUUID := "" } { Status := { FilesystemUUID := "5f0c" } } = false :=
  (validateDevInfo_iff { FSUUID := "" } { Status := { FilesystemUUID := "5f0c" } }).2
    rfl (by decide)

/-- C20: `IsFormatRequested` returns true if and only if the record is owned
by the orchestrator, has a pending format request and its status is
available; with any other status, such as in-use or ready when these differ
from available, it returns false. -/
theorem IsFormatRequested_iff (k : DriveStatusConsts) (directCSIDrive : DirectCSIDrive) :
    (IsFormatRequested k directCSIDrive = true ↔
      directCSIDrive.Spec.DirectCSIOwned = true ∧
      directCSIDrive.Spec.RequestedFormat ≠ none ∧
      directCSIDrive.Status.DriveStatus = k.DriveStatusAvailable) ∧
    (directCSIDrive.Status.DriveStatus ≠ k.DriveStatusAvailable →
      IsFormatRequested k directCSIDrive = false) ∧
    (k.DriveStatusInUse ≠ k.DriveStatusAvailable →
      directCSIDrive.Status.DriveStatus = k.DriveStatusInUse →
      IsFormatRequested k directCSIDrive = false) ∧
    (k.DriveStatusReady ≠ k.DriveStatusAvailable →
      directCSIDrive.Status.DriveStatus = k.DriveStatusReady →
      IsFormatRequested k directCSIDrive = false) := by
  have hfalse : directCSIDrive.Status.DriveStatus ≠ k.DriveStatusAvailable →
      IsFormatRequested k directCSIDrive = false := by
    intro h
    simp [IsFormatRequested, h]
  refine ⟨?_, hfalse, ?_, ?_⟩
  · simp [IsFormatRequested, Option.isSome_iff_ne_none, and_assoc]
  · intro h1 h2
    exact hfalse (by rw [h2]; exact h1)
  · intro h1 h2
    exact hfalse (by rw [h2]; exact h1)

/-- Witness of C20: an owned drive with a pending format request is reported
when it is available and not when it is in use. -/
theorem IsFormatRequested_iff_witness :
    IsFormatRequested driveStatusConsts
      { Spec := { DirectCSIOwned := true, RequestedFormat := some { Filesystem := "xfs" } },
        Status := { DriveStatus := "Available" } } = true ∧
    IsFormatRequested driveStatusConsts
      { Spec := { DirectCSIOwned := true, RequestedFormat := some { Filesystem := "xfs" } },
        Status := { DriveStatus := "InUse" } } = false :=
  ⟨(IsFormatRequested_iff driveStatusConsts _).1.2 ⟨rfl, by decide, rfl⟩,
   (IsFormatRequested_iff driveStatusConsts _).2.2.1 (by decide) rfl⟩


/-! ## Properties of `filterDrivesByUEventFSUUID` and `listDrives` -/

/-- On a listing of drive records the loop of `filterDrivesByUEventFSUUID`
appends the records of the node with the given uevent filesystem UUID, in
listing order, and returns no error. -/
theorem filterDrivesLoop_drives (nodeID fsuuid : String) :
    ∀ (drives : List DirectCSIDrive) (filteredDrives : List DirectCSIDrive),
      filterDrivesLoop nodeID fsuuid (drives.map .drive) (some filteredDrives)
        = (some (filteredDrives ++ drives.filter fun d =>
            onNode nodeID d && decide (d.Status.UeventFSUUID = fsuuid)), none)
  | [], acc => by simp [filterDrivesLoop]
  | d :: ds, acc => by
    simp only [List.map_cons, filterDrivesLoop, ne_eq, ite_not]
    by_cases h1 : d.Status.NodeName = nodeID
    · by_cases h2 : d.Status.UeventFSUUID = fsuuid
      · rw [if_pos h1, if_pos h2, appendDrive, Option.getD_some,
          filterDrivesLoop_drives nodeID fsuuid ds (acc ++ [d])]
        simp [List.filter_cons, onNode, h1, h2]
      · rw [if_pos h1, if_neg h2, filterDrivesLoop_drives nodeID fsuuid ds acc]
        simp [List.filter_cons, onNode, h1, h2]
    · rw [if_neg h1, filterDrivesLoop_drives nodeID fsuuid ds acc]
      simp [List.filter_cons, onNode, h1]

/-- The loop of `filterDrivesByUEventFSUUID` returns the error exactly when an
object that is left is not a drive record, and then it returns the nil
slice. -/
theorem filterDrivesLoop_error (nodeID fsuuid : String) :
    ∀ (objects : List StoreObject) (filteredDrives : Option (List DirectCSIDrive)),
      ((filterDrivesLoop nodeID fsuuid objects filteredDrives).2
          = some .errNotDirectCSIDriveObject ↔ ∃ o ∈ objects, o.isDrive = false) ∧
      ((∃ o ∈ objects, o.isDrive = false) →
        filterDrivesLoop nodeID fsuuid objects filteredDrives
          = (none, some .errNotDirectCSIDriveObject))
  | [], acc => by simp [filterDrivesLoop]
  | .other t :: objects, acc => by
    simp [filterDrivesLoop, StoreObject.isDrive]
  | .drive d :: objects, acc => by
    have ih := fun a => filterDrivesLoop_error nodeID fsuuid objects a
    simp only [filterDrivesLoop, List.mem_cons, exists_eq_or_imp, StoreObject.isDrive,
      Bool.true_eq_false, false_or]
    split_ifs
    · exact ih acc
    · exact ih acc
    · exact ih _

/-- On a listing of drive records the loop of `listDrives` appends the managed
records of the node to `managedDrives` and its other records to
`nonManagedDrives`, in listing order, and returns no error. -/
theorem listDrivesLoop_drives (k : DriveStatusConsts) (nodeID : String) :
    ∀ (drives : List DirectCSIDrive) (m n : Option (List DirectCSIDrive)),
      (listDrivesLoop k nodeID (drives.map .drive) m n).2.2 = none ∧
      driveElems (listDrivesLoop k nodeID (drives.map .drive) m n).1
        = driveElems m ++ drives.filter (fun d => onNode nodeID d && isManaged k d) ∧
      driveElems (listDrivesLoop k nodeID (drives.map .drive) m n).2.1
        = driveElems n ++ drives.filter (fun d => onNode nodeID d && !isManaged k d)
  | [], m, n => by simp [listDrivesLoop]
  | d :: ds, m, n => by
    have ih := fun a b => listDrivesLoop_drives k nodeID ds a b
    simp only [List.map_cons, listDrivesLoop, ne_eq, ite_not]
    by_cases h1 : d.Status.NodeName = nodeID
    · have hn : onNode nodeID d = true := by simp [onNode, h1]
      by_cases h2 : d.Status.DriveStatus = k.DriveStatusInUse ∨
          d.Status.DriveStatus = k.DriveStatusReady
      · have hm : isManaged k d = true := by simp only [isManaged, h2, decide_True]
        rw [if_pos h1, if_pos h2]
        obtain ⟨e1, e2, e3⟩ := ih (appendDrive m d) n
        refine ⟨e1, ?_, ?_⟩
        · rw [e2]
          simp [List.filter_cons, hn, hm, appendDrive, driveElems]
        · rw [e3]
          simp [List.filter_cons, hn, hm]
      · have hm : isManaged k d = false := by simp only [isManaged, h2, decide_False]
        rw [if_pos h1, if_neg h2]
        obtain ⟨e1, e2, e3⟩ := ih m (appendDrive n d)
        refine ⟨e1, ?_, ?_⟩
        · rw [e2]
          simp [List.filter_cons, hn, hm]
        · rw [e3]
          simp [List.filter_cons, hn, hm, appendDrive, driveElems]
    · have hn : onNode nodeID d = false := by simp [onNode, h1]
      rw [if_neg h1]
      obtain ⟨e1, e2, e3⟩ := ih m n
      refine ⟨e1, ?_, ?_⟩
      · rw [e2]
        simp [List.filter_cons, hn]
      · rw [e3]
        simp [List.filter_cons, hn]

/-- The loop of `listDrives` returns the error exactly when an object that is
left is not a drive record, and then it returns two nil slices. -/
theorem listDrivesLoop_error (k : DriveStatusConsts) (nodeID : String) :
    ∀ (objects : List StoreObject) (m n : Option (List DirectCSIDrive)),
      ((listDrivesLoop k nodeID objects m n).2.2
          = some .errNotDirectCSIDriveObject ↔ ∃ o ∈ objects, o.isDrive = false) ∧
      ((∃ o ∈ objects, o.isDrive = false) →
        listDrivesLoop k nodeID objects m n
          = (none, none, some .errNotDirectCSIDriveObject))
  | [], m, n => by simp [listDrivesLoop]
  | .other t :: objects, m, n => by
    simp [listDrivesLoop, StoreObject.isDrive]
  | .drive d :: objects, m, n => by
    have ih := fun a b => listDrivesLoop_error k nodeID objects a b
    simp only [listDrivesLoop, List.mem_cons, exists_eq_or_imp, StoreObject.isDrive,
      Bool.true_eq_false, false_or]
    split_ifs
    · exact ih m n
    · exact ih _ n
    · exact ih m _


/-- C12: on a store that lists only drive records `listDrives` returns no
error; the managed list holds the records of the indexer's node whose status
is in-use or ready and the non-managed list its other records, both in listing
order.  So a record of the node is in the two lists together as often as it is
listed, in the managed list only when its status is in-use or ready and in the
non-managed list only otherwise, and a record of another node is in neither
list. -/
theorem listDrives_partition (k : DriveStatusConsts) (nodeID : String)
    (drives : List DirectCSIDrive) :
    (indexer.listDrives k { store := drives.map .drive, nodeID := nodeID }).2.2 = none ∧
    driveElems (indexer.listDrives k { store := drives.map .drive, nodeID := nodeID }).1
      = drives.filter (fun d => onNode nodeID d && isManaged k d) ∧
    driveElems (indexer.listDrives k { store := drives.map .drive, nodeID := nodeID }).2.1
      = drives.filter (fun d => onNode nodeID d && !isManaged k d) ∧
    (∀ d : DirectCSIDrive, d.Status.NodeName = nodeID →
      (d.Status.DriveStatus = k.DriveStatusInUse ∨ d.Status.DriveStatus = k.DriveStatusReady →
        List.count d (driveElems
            (indexer.listDrives k { store := drives.map .drive, nodeID := nodeID }).1)
          = List.count d drives ∧
        d ∉ driveElems
            (indexer.listDrives k { store := drives.map .drive, nodeID := nodeID }).2.1) ∧
      (¬ (d.Status.DriveStatus = k.DriveStatusInUse ∨
            d.Status.DriveStatus = k.DriveStatusReady) →
        List.count d (driveElems
            (indexer.listDrives k { store := drives.map .drive, nodeID := nodeID }).2.1)
          = List.count d drives ∧
        d ∉ driveElems
            (indexer.listDrives k { store := drives.map .drive, nodeID := nodeID }).1)) ∧
    (∀ d : DirectCSIDrive, d.Status.NodeName ≠ nodeID →
      d ∉ driveElems (indexer.listDrives k { store := drives.map .drive, nodeID := nodeID }).1 ∧
      d ∉ driveElems
        (indexer.listDrives k { store := drives.map .drive, nodeID := nodeID }).2.1) := by
  obtain ⟨e1, e2, e3⟩ := listDrivesLoop_drives k nodeID drives none none
  simp only [driveElems, Option.getD_none, List.nil_append] at e2 e3
  simp only [indexer.listDrives, driveElems]
  rw [e2, e3]
  refine ⟨e1, rfl, rfl, ?_, ?_⟩
  · intro d hd
    have hn : onNode nodeID d = true := by simp [onNode, hd]
    constructor
    · intro hs
      have hm : isManaged k d = true := by simp only [isManaged, hs, decide_True]
      constructor
      · exact List.count_filter (by simp [hn, hm])
      · simp [List.mem_filter, hm]
    · intro hs
      have hm : isManaged k d = false := by simp only [isManaged, hs, decide_False]
      constructor
      · exact List.count_filter (by simp [hn, hm])
      · simp [List.mem_filter, hm]
  · intro d hd
    have hn : onNode nodeID d = false := by simp [onNode, hd]
    simp [List.mem_filter, hn]

/-- Witness of C12: a store with an in-use and a ready record of the node, an
available record of the node and an in-use record of another node. -/
theorem listDrives_partition_witness :
    driveElems (indexer.listDrives driveStatusConsts
      { nodeID := "node-1",
        store := [
          { Status := { NodeName := "node-1", Path := "/dev/sda", DriveStatus := "InUse" } },
          { Status := { NodeName := "node-2", Path := "/dev/sda", DriveStatus := "InUse" } },
          { Status := { NodeName := "node-1", Path := "/dev/sdb", DriveStatus := "Available" } },
          { Status := { NodeName := "node-1", Path := "/dev/sdc", DriveStatus := "Ready" } }].map
            .drive }).1
      = [{ Status := { NodeName := "node-1", Path := "/dev/sda", DriveStatus := "InUse" } },
         { Status := { NodeName := "node-1", Path := "/dev/sdc", DriveStatus := "Ready" } }] ∧
    driveElems (indexer.listDrives driveStatusConsts
      { nodeID := "node-1",
        store := [
          { Status := { NodeName := "node-1", Path := "/dev/sda", DriveStatus := "InUse" } },
          { Status := { NodeName := "node-2", Path := "/dev/sda", DriveStatus := "InUse" } },
          { Status := { NodeName := "node-1", Path := "/dev/sdb", DriveStatus := "Available" } },
          { Status := { NodeName := "node-1", Path := "/dev/sdc", DriveStatus := "Ready" } }].map
            .drive }).2.1
      = [{ Status := { NodeName := "node-1", Path := "/dev/sdb", DriveStatus := "Available" } }] :=
  ⟨(listDrives_partition driveStatusConsts "node-1" _).2.1.trans (by decide),
   (listDrives_partition driveStatusConsts "node-1" _).2.2.1.trans (by decide)⟩

/-- C13: on a store that lists only drive records
`filterDrivesByUEventFSUUID(u)` returns no error and the records of the
indexer's node whose uevent filesystem UUID is `u`, as often and in the order
in which the store lists them; when no record qualifies it returns the empty
list (not nil) and no error. -/
theorem filterDrivesByUEventFSUUID_spec (nodeID fsuuid : String)
    (drives : List DirectCSIDrive) :
    indexer.filterDrivesByUEventFSUUID { store := drives.map .drive, nodeID := nodeID } fsuuid
      = (some (drives.filter fun d =>
          onNode nodeID d && decide (d.Status.UeventFSUUID = fsuuid)), none) ∧
    ((∀ d ∈ drives, ¬ (d.Status.NodeName = nodeID ∧ d.Status.UeventFSUUID = fsuuid)) →
      indexer.filterDrivesByUEventFSUUID { store := drives.map .drive, nodeID := nodeID } fsuuid
        = (some [], none)) := by
  have key := filterDrivesLoop_drives nodeID fsuuid drives []
  rw [List.nil_append] at key
  refine ⟨key, ?_⟩
  intro hnone
  rw [indexer.filterDrivesByUEventFSUUID, key]
  have : drives.filter (fun d => onNode nodeID d && decide (d.Status.UeventFSUUID = fsuuid))
      = [] := by
    rw [List.filter_eq_nil_iff]
    intro d hd
    have := hnone d hd
    simpa [onNode] using this
  rw [this]

/-- Witness of C13: a store with three records, one of them on another node,
and a UUID that no record has. -/
theorem filterDrivesByUEventFSUUID_spec_witness :
    indexer.filterDrivesByUEventFSUUID
      { nodeID := "node-1",
        store := [
          .drive { Status := { NodeName := "node-1", Path := "/dev/sda", UeventFSUUID := "u1" } },
          .drive { Status := { NodeName := "node-2", Path := "/dev/sda", UeventFSUUID := "u1" } },
          .drive { Status := { NodeName := "node-1", Path := "/dev/sdb", UeventFSUUID := "u2" } }] }
      "u3" = (some [], none) :=
  (filterDrivesByUEventFSUUID_spec "node-1" "u3"
    [{ Status := { NodeName := "node-1", Path := "/dev/sda", UeventFSUUID := "u1" } },
     { Status := { NodeName := "node-2", Path := "/dev/sda", UeventFSUUID := "u1" } },
     { Status := { NodeName := "node-1", Path := "/dev/sdb", UeventFSUUID := "u2" } }]).2
    (by decide)

/-- C14: `filterDrivesByUEventFSUUID` and `listDrives` return
`errNotDirectCSIDriveObject` if and only if some listed object is not a drive
record, and in that case they return nil slices, no records at all. -/
theorem classifier_error_iff (k : DriveStatusConsts) (i : indexer) (fsuuid : String) :
    ((i.filterDrivesByUEventFSUUID fsuuid).2 = some .errNotDirectCSIDriveObject ↔
      ∃ o ∈ i.store, o.isDrive = false) ∧
    ((i.listDrives k).2.2 = some .errNotDirectCSIDriveObject ↔
      ∃ o ∈ i.store, o.isDrive = false) ∧
    ((∃ o ∈ i.store, o.isDrive = false) →
      i.filterDrivesByUEventFSUUID fsuuid = (none, some .errNotDirectCSIDriveObject) ∧
      i.listDrives k = (none, none, some .errNotDirectCSIDriveObject)) := by
  have h1 := filterDrivesLoop_error i.nodeID fsuuid i.store (some [])
  have h2 := listDrivesLoop_error k i.nodeID i.store none none
  exact ⟨h1.1, h2.1, fun h => ⟨h1.2 h, h2.2 h⟩⟩

/-- Witness of C14: an object of another type after two records, one of which
would have been returned. -/
theorem classifier_error_iff_witness :
    indexer.filterDrivesByUEventFSUUID
      { nodeID := "node-1",
        store := [
          .drive { Status := { NodeName := "node-1", UeventFSUUID := "u1" } },
          .drive { Status := { NodeName := "node-2", DriveStatus := "Ready" } },
          .other "v1.Pod"] } "u1" = (none, some .errNotDirectCSIDriveObject) ∧
    indexer.listDrives driveStatusConsts
      { nodeID := "node-1",
        store := [
          .drive { Status := { NodeName := "node-1", UeventFSUUID := "u1" } },
          .drive { Status := { NodeName := "node-2", DriveStatus := "Ready" } },
          .other "v1.Pod"] } = (none, none, some .errNotDirectCSIDriveObject) :=
  (classifier_error_iff driveStatusConsts _ "u1").2.2 ⟨.other "v1.Pod", by decide, rfl⟩

end DirectPV
